import Mathlib

/-!
Verification of the crawl-and-acquire core of the card-data-crawler
repository against its specification.

The JavaScript sources are shallowly embedded: strings are `List Char`,
pure functions become Lean functions, stateful code (the rate limiter)
becomes explicit state passing over exact rationals, and fallible code
returns `Option`.  The WHATWG `URL` platform object is modelled by
`parseURL`/`serializeURL`, restricted to the behaviours the repository
relies on (scheme/host lowercasing, default pathname `/`, fragment
removal); percent-encoding normalisation, IDN, ports and dot-segment
resolution are not modelled, and no input exercised below depends on
them.  The scanning string functions are written with an explicit fuel
argument (initialised to the string length, consumed one character per
step) so that they are structurally recursive and evaluate by `decide`;
fuel adequacy is established by the lemmas that use them.
-/

/-- Strings of the embedded program: JavaScript strings as lists of characters. -/
abbrev Str := List Char

/-- The characters matched by the JavaScript regex class `\s`
(ASCII fragment; the URLs in play contain no exotic whitespace). -/
def isWs (c : Char) : Bool :=
  c = ' ' || c = '\t' || c = '\n' || c = '\r' || c = '\x0b' || c = '\x0c'

/-- JavaScript `String.prototype.toLowerCase` (ASCII fragment). -/
def lowerStr (s : Str) : Str := s.map Char.toLower

/-- JavaScript `String.prototype.includes`: substring test. -/
def hasSub (s pat : Str) : Bool := decide (pat <:+: s)

/-- Case-insensitive substring test, as produced by a `/pat/i` regex whose
pattern is a plain literal (callers pass `pat` already lowercased). -/
def hasSubI (s pat : Str) : Bool := hasSub (lowerStr s) pat

/-- JavaScript `String.prototype.startsWith`. -/
def startsWith (s pat : Str) : Bool := pat.isPrefixOf s

/-- Case-insensitive prefix test, as produced by an anchored `/^pat/i` regex
(callers pass `pat` already lowercased). -/
def startsWithI (s pat : Str) : Bool := pat.isPrefixOf (lowerStr s)

/-- JavaScript `String.prototype.endsWith`. -/
def endsWith (s pat : Str) : Bool := pat.isSuffixOf s

/-- JavaScript `String.prototype.trim` (ASCII whitespace fragment). -/
def jsTrim (s : Str) : Str :=
  ((s.dropWhile isWs).reverse.dropWhile isWs).reverse

/-- Fuelled scanner for `replaceAll`; one character of fuel per step. -/
def replaceAllAux (pat rep : Str) : Nat → Str → Str
  | _, [] => []
  | 0, s => s
  | n + 1, c :: rest =>
    if 0 < pat.length ∧ pat.isPrefixOf (c :: rest) then
      rep ++ replaceAllAux pat rep n ((c :: rest).drop pat.length)
    else
      c :: replaceAllAux pat rep n rest

/-- JavaScript `s.replace(/lit/g, rep)` for a non-empty literal pattern:
global, left-to-right, non-overlapping; replacement text is not rescanned. -/
def replaceAll (pat rep s : Str) : Str := replaceAllAux pat rep s.length s

/-- Fuelled scanner for `wsToPct`. -/
def wsToPctAux : Nat → Str → Str
  | _, [] => []
  | 0, s => s
  | n + 1, c :: rest =>
    if isWs c then
      '%' :: '2' :: '0' :: wsToPctAux n (rest.dropWhile isWs)
    else
      c :: wsToPctAux n rest

/-- JavaScript `s.replace(/\s+/g, '%20')`: each maximal whitespace run
becomes a single `%20`. -/
def wsToPct (s : Str) : Str := wsToPctAux s.length s

/-- Fuelled scanner for `fixSchemeSlashes`. -/
def fixSchemeSlashesAux (lit : Str) : Nat → Str → Str
  | _, [] => []
  | 0, s => s
  | n + 1, c :: rest =>
    if 0 < lit.length ∧ lit.isPrefixOf (c :: rest) ∧
        (((c :: rest).drop lit.length).take 2 = ['/', '/']) then
      lit ++ '/' :: '/' ::
        fixSchemeSlashesAux lit n (((c :: rest).drop lit.length).dropWhile (· = '/'))
    else
      c :: fixSchemeSlashesAux lit n rest

/-- JavaScript `s.replace(/lit\/\/+/g, 'lit//')` for `lit` = `https:` or
`http:`: a literal scheme followed by two or more slashes collapses to the
scheme plus exactly two slashes (greedy, resuming after the run). -/
def fixSchemeSlashes (lit s : Str) : Str := fixSchemeSlashesAux lit s.length s

/-- Fuelled scanner for `collapseSlashes`. -/
def collapseSlashesAux : Nat → Str → Str
  | _, [] => []
  | 0, s => s
  | n + 1, a :: rest =>
    if rest.take 2 = ['/', '/'] ∧ a ≠ ':' then
      a :: '/' :: collapseSlashesAux n ((rest.drop 2).dropWhile (· = '/'))
    else
      a :: collapseSlashesAux n rest

/-- JavaScript `s.replace(/([^:]\/)\/+/g, '$1')`: a non-colon character
followed by two or more slashes keeps only one slash; scanning resumes
after the consumed run, and on a failed match advances one character. -/
def collapseSlashes (s : Str) : Str := collapseSlashesAux s.length s

/-- JavaScript `s.replace(/\/$/, '')`: removes one trailing slash. -/
def stripOneTrailingSlash (s : Str) : Str :=
  if s.getLast? = some '/' then s.dropLast else s

/-- The components of a parsed WHATWG `URL` object, as the repository uses
them: `scheme` and `host` are stored lowercased (as the platform parser
does); `query` retains its leading `?` and `hash` its leading `#`. -/
structure URLRec where
  scheme : Str
  host : Str
  path : Str
  query : Str
  hash : Str
deriving DecidableEq, Repr

/-- Characters allowed in a URL scheme after the first. -/
def isSchemeChar (c : Char) : Bool :=
  c.isAlphanum || c = '+' || c = '-' || c = '.'

/-- A syntactically valid URL scheme: non-empty, leading letter. -/
def validSchemeStr (s : Str) : Bool :=
  match s with
  | [] => false
  | c :: rest => c.isAlpha && rest.all isSchemeChar

/-- Characters that continue the scheme region of `new URL`. -/
def notSchemeSep (c : Char) : Bool := ¬ (c = ':' || c = '/' || c = '?' || c = '#')

/-- Characters that continue the host region of `new URL`. -/
def notHostSep (c : Char) : Bool := ¬ (c = '/' || c = '?' || c = '#')

/-- Characters that continue the path region of `new URL`. -/
def notPathSep (c : Char) : Bool := ¬ (c = '?' || c = '#')

/-- Characters that continue the query region of `new URL`. -/
def notHashChar (c : Char) : Bool := ¬ (c = '#')

/-- Model of `new URL(s)` for absolute http(s)-style URLs of the shape
`scheme://host[path][?query][#hash]`; returns `none` where the platform
parser would throw (and on forms outside the modelled fragment). -/
def parseURL (s : Str) : Option URLRec :=
  let sch := s.takeWhile notSchemeSep
  if validSchemeStr sch ∧ (s.drop sch.length).take 3 = [':', '/', '/'] then
    let rest := s.drop (sch.length + 3)
    let host := rest.takeWhile notHostSep
    if host = [] then none
    else
      let afterHost := rest.drop host.length
      let path := afterHost.takeWhile notPathSep
      let afterPath := afterHost.drop path.length
      let query := afterPath.takeWhile notHashChar
      let hash := afterPath.drop query.length
      some ⟨lowerStr sch, lowerStr host, path, query, hash⟩
  else none

/-- `url.pathname`: the path, defaulting to `/` when empty. -/
def URLRec.pathname (r : URLRec) : Str :=
  if r.path = [] then ['/'] else r.path

/-- `url.toString()` over the modelled fragment. -/
def serializeURL (r : URLRec) : Str :=
  r.scheme ++ [':', '/', '/'] ++ r.host ++ r.pathname ++ r.query ++ r.hash

/-- `linkHandler.cleanUrl` (src/unnamed/part_001, lines 310-347): rejects
template-marker URLs, trims, repairs the fixed corruption table, encodes
whitespace, collapses duplicate slashes and strips one trailing slash.
The `typeof` guard together with JavaScript falsiness of `''` rejects the
empty string. -/
def cleanUrl (url : Str) : Option Str :=
  if url = [] then none
  else if hasSub url ['\x7b', '\x7b'] || hasSub url "%7B%7B".toList ||
      hasSub url ['\x7d', '\x7d'] || hasSub url "%7D%7D".toList then none
  else
    let c := jsTrim url
    let c := if hasSub c "CCredit".toList then replaceAll "CCredit".toList "Credit".toList c else c
    let c := if hasSub c "Carrds".toList then replaceAll "Carrds".toList "Cards".toList c else c
    let c := if hasSub c "Creditt".toList then replaceAll "Creditt".toList "Credit".toList c else c
    let c := if hasSub c "CCard".toList then replaceAll "CCard".toList "Card".toList c else c
    let c := if hasSub c "Supeer".toList then replaceAll "Supeer".toList "Super".toList c else c
    let c := if hasSub c "Preemium".toList then replaceAll "Preemium".toList "Premium".toList c else c
    let c := if hasSub c "immediiate".toList then replaceAll "immediiate".toList "immediate".toList c else c
    let c := if hasSub c "nationnal".toList then replaceAll "nationnal".toList "national".toList c else c
    let c := if hasSub c "remitnnow".toList then replaceAll "remitnnow".toList "remitnow".toList c else c
    let c := if hasSub c "ttime".toList then replaceAll "ttime".toList "time".toList c else c
    let c := if hasSub c "Cardds".toList then replaceAll "Cardds".toList "Cards".toList c else c
    let c := if hasSub c "Creddit".toList then replaceAll "Creddit".toList "Credit".toList c else c
    let c := if hasSub c "ppay".toList then replaceAll "ppay".toList "pay".toList c else c
    let c := if hasSub c "donattions".toList then replaceAll "donattions".toList "donations".toList c else c
    let c := if hasSub c "%%20".toList then replaceAll "%%20".toList "%20".toList c else c
    let c := if hasSub c "%20%20".toList then replaceAll "%20%20".toList "%20".toList c else c
    let c := wsToPct c
    let c := fixSchemeSlashes "https:".toList c
    let c := fixSchemeSlashes "http:".toList c
    let c := collapseSlashes c
    some (stripOneTrailingSlash c)

/-- The corruption-signature denylist of `isValidUrl` (case-insensitive
regexes, given here lowercased). -/
def corruptionPats : List Str :=
  ["creddit".toList, "cardds".toList, "traansfer".toList, "milllennia".toList,
   "commmercial".toList, "busiiness".toList, "ccredit".toList, "uusers".toList]

/-- The second case-insensitive denylist of `isValidUrl` (the alternation
`/CCredit|immediiate|nationnal|remitnnow|ttime|Cardds|Creddit|ppay|donattions/i`,
given here lowercased; `CCredit` and `Creddit` coincide after lowercasing). -/
def badAlternationPats : List Str :=
  ["ccredit".toList, "immediiate".toList, "nationnal".toList, "remitnnow".toList,
   "ttime".toList, "cardds".toList, "creddit".toList, "ppay".toList, "donattions".toList]

/-- `linkHandler.isValidUrl` (src/unnamed/part_001, lines 256-308). -/
def isValidUrl (url : Str) : Bool :=
  match parseURL url with
  | none => false
  | some u =>
    if ¬ (u.scheme = "http".toList ∨ u.scheme = "https".toList) then false
    else if corruptionPats.any (fun p => hasSubI url p) then false
    else if startsWithI url "javascript:".toList || startsWithI url "data:".toList ||
        startsWithI url "vbscript:".toList || startsWithI url "file:".toList then false
    else if u.host = [] then false
    else if hasSub url ['\x7b', '\x7b'] || hasSub url ['\x7d', '\x7d'] ||
        hasSub url "%7B%7B".toList || hasSub url "%7D%7D".toList then false
    else if badAlternationPats.any (fun p => hasSubI url p) then false
    else if (['/'] ++ u.host ++ ['/']).isPrefixOf u.pathname then false
    else if hasSub url "%%20".toList || hasSub url "%20%20".toList then false
    else if url.length > 2000 then false
    else true

/-- `linkHandler.normalizeUrl` (src/unnamed/part_001, lines 349-370):
clean, validate, re-parse, strip any path-doubled hostname segment, drop
the fragment, and strip one trailing slash of the serialized form. -/
def normalizeUrl (url : Str) : Option Str :=
  match cleanUrl url with
  | none => none
  | some c =>
    if ¬ isValidUrl c then none
    else
      match parseURL c with
      | none => none
      | some u =>
        let u := if (['/'] ++ u.host ++ ['/']).isPrefixOf u.pathname then
            { u with path := u.pathname.drop (u.host.length + 1) }
          else u
        some (stripOneTrailingSlash (serializeURL { u with hash := [] }))

/-- The error categories produced by `ErrorHandler.categorizeError`. -/
inductive ErrType where
  | VALIDATION | NETWORK | RATE_LIMIT | PARSING | DATA_VALIDATION
  | NOT_FOUND | CLIENT_ERROR | SERVER_ERROR
  | TIMEOUT | DNS_ERROR | CONNECTION_REFUSED | CONNECTION_RESET
  | FILE_NOT_FOUND | PERMISSION_DENIED | IS_DIRECTORY
  | PDF_ERROR | HTML_ERROR | JSON_ERROR | URL_ERROR | UNKNOWN
deriving DecidableEq, Repr

open ErrType

/-- The observable shape of a JavaScript error as `categorizeError`
inspects it: `instanceof` results for the custom error classes, the
optional HTTP response status, the optional `error.code` string, and the
message text. -/
structure JsError where
  isValidationError : Bool := false
  isNetworkError : Bool := false
  isRateLimitError : Bool := false
  isParsingError : Bool := false
  isDataValidationError : Bool := false
  responseStatus : Option Nat := none
  code : Option Str := none
  message : Str := []
deriving Repr

/-- `ErrorHandler.categorizeError` (src/src/utils/errorHandler.js,
lines 114-145). -/
def categorizeError (e : JsError) : ErrType :=
  if e.isValidationError then VALIDATION
  else if e.isNetworkError then NETWORK
  else if e.isRateLimitError then RATE_LIMIT
  else if e.isParsingError then PARSING
  else if e.isDataValidationError then DATA_VALIDATION
  else
    match e.responseStatus with
    | some status =>
      if status = 429 then RATE_LIMIT
      else if status = 404 then NOT_FOUND
      else if 400 ≤ status ∧ status < 500 then CLIENT_ERROR
      else if 500 ≤ status then SERVER_ERROR
      else afterResponse e
    | none => afterResponse e
where
  /-- The code/message cascade after the response-status checks. -/
  afterResponse (e : JsError) : ErrType :=
    if e.code = some "ECONNABORTED".toList then TIMEOUT
    else if e.code = some "ENOTFOUND".toList then DNS_ERROR
    else if e.code = some "ECONNREFUSED".toList then CONNECTION_REFUSED
    else if e.code = some "ECONNRESET".toList then CONNECTION_RESET
    else if e.code = some "ETIMEDOUT".toList then TIMEOUT
    else if e.code = some "ENOENT".toList then FILE_NOT_FOUND
    else if e.code = some "EACCES".toList then PERMISSION_DENIED
    else if e.code = some "EISDIR".toList then IS_DIRECTORY
    else if hasSub e.message "PDF".toList then PDF_ERROR
    else if hasSub e.message "HTML".toList then HTML_ERROR
    else if hasSub e.message "JSON".toList then JSON_ERROR
    else if hasSub e.message "URL".toList then URL_ERROR
    else UNKNOWN

/-- `ErrorHandler.shouldRetry` (src/src/utils/errorHandler.js,
lines 201-238): the guard `attempt >= maxAttempts` is evaluated before the
error is categorised. -/
def shouldRetry (error : JsError) (attempt maxAttempts : Nat) : Bool :=
  if attempt ≥ maxAttempts then false
  else
    let errorType := categorizeError error
    let noRetryTypes := [VALIDATION, DATA_VALIDATION, FILE_NOT_FOUND,
      PERMISSION_DENIED, IS_DIRECTORY, CLIENT_ERROR, NOT_FOUND]
    if noRetryTypes.contains errorType then false
    else
      let alwaysRetryTypes := [NETWORK, TIMEOUT, CONNECTION_RESET,
        CONNECTION_REFUSED, DNS_ERROR, SERVER_ERROR]
      if alwaysRetryTypes.contains errorType then true
      else if errorType = RATE_LIMIT then decide (attempt < maxAttempts + 2)
      else false

/-- An HTTP 404 response error (the spec's `NotFound`). -/
def notFoundError : JsError := { responseStatus := some 404 }

/-- An HTTP 500 response error (the spec's `ServerError`). -/
def serverError : JsError := { responseStatus := some 500 }

/-- An HTTP 429 response error (the spec's `RateLimited`). -/
def rateLimitedError : JsError := { responseStatus := some 429 }

/-- Fuelled scanner counting non-overlapping occurrences of a literal
pattern, as `text.match(new RegExp(kw, 'gi')).length` does for the plain
keyword literals used by the relevance filter. -/
def countOccAux (pat : Str) : Nat → Str → Nat
  | _, [] => 0
  | 0, _ => 0
  | n + 1, c :: rest =>
    if 0 < pat.length ∧ pat.isPrefixOf (c :: rest) then
      1 + countOccAux pat n ((c :: rest).drop pat.length)
    else
      countOccAux pat n rest

/-- Number of non-overlapping, left-to-right occurrences of `pat` in `s`. -/
def countOcc (pat s : Str) : Nat := countOccAux pat s.length s

/-- High-priority keywords of `calculateContentRelevance` (2 points per
occurrence). -/
def highPriorityKeywords : List Str :=
  ["regalia gold".toList, "credit card".toList, "fees".toList, "charges".toList,
   "benefits".toList, "rewards".toList, "cashback".toList, "points".toList,
   "eligibility".toList, "terms".toList, "conditions".toList]

/-- Medium-priority keywords (1 point per occurrence). -/
def mediumPriorityKeywords : List Str :=
  ["insurance".toList, "coverage".toList, "lounge".toList, "milestone".toList,
   "features".toList, "offers".toList, "annual".toList, "joining".toList,
   "waiver".toList]

/-- Off-topic keywords (flat 3-point penalty per keyword present). -/
def irrelevantKeywords : List Str :=
  ["money transfer".toList, "upi".toList, "donation".toList, "remittance".toList,
   "forex".toList, "bill pay".toList, "recharge".toList, "fastag".toList,
   "demat".toList, "mutual fund".toList]

/-- `HTMLCrawler.calculateContentRelevance` (src/src/crawler/htmlCrawler.js,
lines 90-122): URL-token bonuses, per-occurrence keyword bonuses, flat
off-topic penalties, a PDF/download bonus, clamped at zero by
`Math.max(0, score)`. -/
def calculateContentRelevance (fullText url : Str) : Int :=
  let text := lowerStr fullText
  let urlLower := lowerStr url
  let score : Int := 0
  let score := score + (if hasSub urlLower "credit".toList ∧ hasSub urlLower "card".toList then 5 else 0)
  let score := score + (if hasSub urlLower "regalia".toList then 8 else 0)
  let score := score + (if hasSub urlLower "gold".toList then 3 else 0)
  let score := highPriorityKeywords.foldl (fun a kw => a + (countOcc kw text : Int) * 2) score
  let score := mediumPriorityKeywords.foldl (fun a kw => a + (countOcc kw text : Int) * 1) score
  let score := irrelevantKeywords.foldl (fun a kw => a - (if hasSub text kw then 3 else 0)) score
  let score := score + (if hasSub text ".pdf".toList ∨ hasSub text "download".toList then 2 else 0)
  max 0 score

/-- `HTMLCrawler.crawlPage`'s relevance gate (src/src/crawler/htmlCrawler.js,
lines 61-65): the page is kept iff its relevance score is at least 3. -/
def crawlPageKeepsContent (fullText url : Str) : Bool :=
  ¬ (calculateContentRelevance fullText url < 3)

/-- `CardDataAggregator.mergeData`, scalar-field half
(src/src/crawler/pdfParser.js, lines 356-364), expressed for one field as
a step on the accumulated value: a source value is considered only when
truthy (for strings: non-empty), and is written only when the accumulated
value is still falsy or null (initially `null`). -/
def mergeScalarStep (cur : Option Str) (v : Option Str) : Option Str :=
  match v with
  | none => cur
  | some s =>
    if s ≠ [] then
      match cur with
      | none => some s
      | some t => if t = [] then some s else cur
    else cur

/-- The accumulated value of one scalar field after a sequence of
`addSourceData` calls, starting from the `null` of `createEmptyCardData`. -/
def mergeScalarField (sources : List (Option Str)) : Option Str :=
  sources.foldl mergeScalarStep none

/-- `CardDataAggregator.mergeData`, collection-field half
(src/src/crawler/pdfParser.js, lines 366-378), for one source array:
each truthy item with non-empty trim is appended in trimmed form unless
the trimmed form is already present (strict, case-sensitive `includes`). -/
def mergeArrayStep (cur : List Str) (items : List Str) : List Str :=
  items.foldl
    (fun acc item =>
      if item ≠ [] ∧ jsTrim item ≠ [] ∧ ¬ acc.contains (jsTrim item) then
        acc ++ [jsTrim item]
      else acc)
    cur

/-- The accumulated value of one collection field after a sequence of
`addSourceData` calls, starting from the `[]` of `createEmptyCardData`;
a source's array is merged only when it is a non-empty array. -/
def mergeArrayField (sources : List (List Str)) : List Str :=
  sources.foldl (fun cur items => if items ≠ [] then mergeArrayStep cur items else cur) []

/-- The top-level values stored in the aggregator's `cardData` record:
`null`, a string, an array of strings, or a (flat) object. -/
inductive JsonVal where
  | vnull
  | vstr (s : Str)
  | varr (items : List Str)
  | vobj (entries : List (Str × Str))
deriving DecidableEq, Repr

open JsonVal

/-- The per-field filled test of `getCompletenessReport`
(src/src/crawler/pdfParser.js, lines 431-441): the value must be neither
`null`, `undefined` nor `''`; arrays are filled when non-empty, objects
when they have at least one key, and any remaining scalar counts as
filled. -/
def fieldIsFilled : JsonVal → Bool
  | vnull => false
  | vstr s => if s = [] then false else true
  | varr items => decide (items.length > 0)
  | vobj entries => decide (entries.length > 0)

/-- The completeness report. -/
structure CompletenessReport where
  totalFields : Nat
  filledFields : Nat
  emptyFields : Nat
  fieldDetails : List (Str × Bool)
  completenessPercentage : ℚ
deriving Repr

/-- `CardDataAggregator.getCompletenessReport` (src/src/crawler/pdfParser.js,
lines 421-453): a fresh report is computed from the current record alone;
the function reads `this.cardData` and mutates nothing, so in this pure
embedding it is a function of the record. -/
def getCompletenessReport (cardData : List (Str × JsonVal)) : CompletenessReport :=
  let counted := cardData.foldl
    (fun (acc : Nat × Nat × Nat × List (Str × Bool)) field =>
      let (total, filled, empty, details) := acc
      if fieldIsFilled field.2 then
        (total + 1, filled + 1, empty, details ++ [(field.1, true)])
      else
        (total + 1, filled, empty + 1, details ++ [(field.1, false)]))
    (0, 0, 0, [])
  { totalFields := counted.1
    filledFields := counted.2.1
    emptyFields := counted.2.2.1
    fieldDetails := counted.2.2.2
    completenessPercentage := ((counted.2.1 : ℚ) / (counted.1 : ℚ)) * 100 }

/-- A record with 20 top-level fields of which 11 are non-empty, for the
spec's completeness example. -/
def demoRecord20 : List (Str × JsonVal) :=
  [("f01".toList, vstr "x".toList), ("f02".toList, vstr "y".toList),
   ("f03".toList, vstr "z".toList), ("f04".toList, vstr "u".toList),
   ("f05".toList, vstr "v".toList), ("f06".toList, vstr "w".toList),
   ("f07".toList, varr ["a".toList]), ("f08".toList, varr ["b".toList]),
   ("f09".toList, varr ["c".toList]), ("f10".toList, vobj [("k".toList, "1".toList)]),
   ("f11".toList, vobj [("k".toList, "2".toList)]),
   ("f12".toList, vnull), ("f13".toList, vnull), ("f14".toList, vnull),
   ("f15".toList, vstr []), ("f16".toList, vstr []),
   ("f17".toList, varr []), ("f18".toList, varr []),
   ("f19".toList, vobj []), ("f20".toList, vobj [])]

/-- `TokenBucket` state (src/src/utils/rateLimiter.js, lines 3-10): times
are in milliseconds, tokens are exact rationals. -/
structure TokenBucket where
  tokensPerInterval : ℚ
  interval : ℚ
  maxBurst : ℚ
  tokens : ℚ
  lastFill : ℚ
deriving Repr

/-- `new TokenBucket(tokensPerInterval, interval, maxBurst)` created at
time `now`: the bucket starts full and `lastFill = Date.now()`. -/
def TokenBucket.create (tokensPerInterval interval maxBurst now : ℚ) : TokenBucket :=
  { tokensPerInterval, interval, maxBurst, tokens := maxBurst, lastFill := now }

/-- `TokenBucket.fillBucket` (lines 12-20) at wall-clock time `now`. -/
def TokenBucket.fillBucket (b : TokenBucket) (now : ℚ) : TokenBucket :=
  let elapsed := (now - b.lastFill) / 1000
  { b with
    tokens := min b.maxBurst (b.tokens + elapsed * b.tokensPerInterval / (b.interval / 1000))
    lastFill := now }

/-- `TokenBucket.tryTake` (lines 22-29) at time `now`: fills, then consumes
one token when at least one is available. -/
def TokenBucket.tryTake (b : TokenBucket) (now : ℚ) : Bool × TokenBucket :=
  let b := b.fillBucket now
  if 1 ≤ b.tokens then (true, { b with tokens := b.tokens - 1 })
  else (false, b)

/-- `TokenBucket.getWaitTime` (lines 31-36) at time `now`: fills, then
reports how long until one token is available. -/
def TokenBucket.getWaitTime (b : TokenBucket) (now : ℚ) : ℚ × TokenBucket :=
  let b := b.fillBucket now
  if 1 ≤ b.tokens then (0, b)
  else (((1 - b.tokens) * b.interval) / b.tokensPerInterval, b)

/-- `DomainRateLimiter` options with the constructor defaults
(src/src/utils/rateLimiter.js, lines 40-47). -/
structure LimiterOptions where
  requestsPerSecond : ℚ := 2
  burstSize : ℚ := 5
  minDelayMs : ℚ := 500
  maxDelayMs : ℚ := 10000

/-- Per-domain limiter state: the domain's token bucket plus
`lastRequestTime.get(domain) || 0`. -/
structure DomainState where
  bucket : TokenBucket
  lastRequestTime : ℚ
deriving Repr

/-- The `while (!limiter.tryTake())` loop of `waitForRateLimit`
(lines 71-78), with virtual time advanced by each awaited delay.  The
fuel bounds the number of loop iterations; `none` means the fuel ran out
(the untaken branch in every run proved below). -/
def limiterLoop (opts : LimiterOptions) : Nat → TokenBucket → ℚ → Option (ℚ × TokenBucket)
  | 0, _, _ => none
  | fuel + 1, b, t =>
    let (ok, b') := b.tryTake t
    if ok then some (t, b')
    else
      let (w, b'') := b'.getWaitTime t
      limiterLoop opts fuel b'' (t + min w opts.maxDelayMs)

/-- `DomainRateLimiter.waitForRateLimit` (lines 63-80) for one domain,
started at time `now`: enforce the minimum inter-request spacing, then
loop on the token bucket; returns the total imposed delay and the new
state, with `lastRequestTime` set to the completion time. -/
def waitForRateLimit (opts : LimiterOptions) (st : DomainState) (now : ℚ) (fuel : Nat) :
    Option (ℚ × DomainState) :=
  let timeSinceLastRequest := now - st.lastRequestTime
  let t1 := if timeSinceLastRequest < opts.minDelayMs then
      now + (opts.minDelayMs - timeSinceLastRequest)
    else now
  match limiterLoop opts fuel st.bucket t1 with
  | none => none
  | some (tf, b) => some (tf - now, { bucket := b, lastRequestTime := tf })

/-- A fresh per-domain limiter as `getLimiter` creates it on first use at
time `t0` (lines 52-61): full bucket, no recorded last request. -/
def freshDomainState (opts : LimiterOptions) (t0 : ℚ) : DomainState :=
  { bucket := TokenBucket.create opts.requestsPerSecond 1000 opts.burstSize t0
    lastRequestTime := 0 }

/-- The delays imposed on `count` back-to-back `waitForRateLimit` calls
(each issued the instant the previous one completes, with no work in
between), starting from state `st` at time `now`. -/
def acquireSeq (opts : LimiterOptions) : Nat → DomainState → ℚ → Option (List ℚ)
  | 0, _, _ => some []
  | count + 1, st, now =>
    (waitForRateLimit opts st now 2).bind fun p =>
      (acquireSeq opts count p.2 (now + p.1)).map fun ds => p.1 :: ds

/-- The delays for `count` immediate acquires against a fresh limiter with
the default configuration (rate 2/s, burst 5, min spacing 500ms). -/
def acquireDelays (count : Nat) (t0 : ℚ) : Option (List ℚ) :=
  acquireSeq {} count (freshDomainState {} t0) t0

/-- Results of `count` consecutive `tryTake` calls, all issued at the same
instant `now`. -/
def tryTakeSeq : Nat → TokenBucket → ℚ → List Bool × TokenBucket
  | 0, b, _ => ([], b)
  | count + 1, b, now =>
    let (ok, b') := b.tryTake now
    let (oks, b'') := tryTakeSeq count b' now
    (ok :: oks, b'')

/-- The suffix of `s` strictly after the first occurrence of `pat`
(`none` when `pat` does not occur); fuelled scanner. -/
def afterFirstAux (pat : Str) : Nat → Str → Option Str
  | _, [] => none
  | 0, _ => none
  | n + 1, c :: rest =>
    if 0 < pat.length ∧ pat.isPrefixOf (c :: rest) then
      some ((c :: rest).drop pat.length)
    else
      afterFirstAux pat n rest

/-- The suffix after the first occurrence of `pat` in `s`. -/
def afterFirst (pat s : Str) : Option Str := afterFirstAux pat s.length s

/-- The test of a regex `/a.*b/`: an occurrence of `a` with an occurrence
of `b` somewhere after it. -/
def seqContains (s a b : Str) : Bool :=
  match afterFirst a s with
  | none => false
  | some t => hasSub t b

/-- Fuelled scanner for `hasSubNotFollowedBy`: the regex engine tries a
match of `a` at every position and accepts when the negative lookahead
(no later `b`) holds there. -/
def hasSubNotFollowedByAux (a b : Str) : Nat → Str → Bool
  | 0, _ => false
  | _, [] => false
  | n + 1, c :: rest =>
    (a.isPrefixOf (c :: rest) && ¬ hasSub ((c :: rest).drop a.length) b) ||
      hasSubNotFollowedByAux a b n rest

/-- The test of a regex `/a(?!.*b)/`: an occurrence of `a` that is not
followed anywhere later by `b`. -/
def hasSubNotFollowedBy (s a b : Str) : Bool :=
  hasSubNotFollowedByAux a b s.length s

/-- The test of the regex `/[^:]\/{3,}/`: some non-colon character
followed by at least three slashes. -/
def hasNonColonTripleSlash : Str → Bool
  | [] => false
  | a :: rest =>
    (a ≠ ':' && rest.take 3 = ['/', '/', '/']) || hasNonColonTripleSlash rest

/-- `settings.ignorePatterns` (src/src/config/settings.js, lines 19-70),
each regex translated to the substring/anchor test it denotes on URL
strings (which contain no newlines). -/
def ignorePatterns : List (Str → Bool) :=
  [fun u => hasSub u "/login".toList,
   fun u => hasSub u "/netbanking".toList,
   fun u => hasSub u "/mycards".toList,
   fun u => hasSub u "/careers".toList,
   fun u => hasSub u "/investor-relations".toList,
   fun u => hasSub u "/press-releases".toList,
   fun u => hasSub u "/money-transfer".toList,
   fun u => hasSub u "/upi".toList,
   fun u => hasSub u "/donation".toList,
   fun u => hasSub u "/remittance".toList,
   fun u => hasSub u "/forex".toList,
   fun u => hasSub u "/bill-pay".toList,
   fun u => hasSub u "/recharge".toList,
   fun u => hasSub u "/fastag".toList,
   fun u => hasSub u "/demat".toList,
   fun u => hasSub u "/mutual-fund".toList,
   fun u => hasSub u "/loan".toList,
   fun u => hasSub u "/deposit".toList,
   fun u => hasSub u "/savings".toList,
   fun u => hasSub u "/current-account".toList,
   fun u => hasSub u "/debit-card".toList,
   fun u => hasSub u "/business-card".toList,
   fun u => hasSub u "/commercial-card".toList,
   fun u => hasSub u "/tax".toList,
   fun u => hasSubNotFollowedBy u "/insurance".toList "credit".toList,
   fun u => hasSub u "/personal-loan".toList,
   fun u => hasSub u "/home-loan".toList,
   fun u => hasSub u "javascript:".toList,
   fun u => hasSub u "mailto:".toList,
   fun u => hasSub u "tel:".toList,
   fun u => u.getLast? = some '#',
   fun u => hasSub u "/search".toList,
   fun u => hasSub u "/sitemap".toList,
   fun u => hasSub u "/privacy-policy".toList,
   fun u => hasSub u "/cookie-policy".toList,
   fun u => hasSub u "/contact".toList,
   fun u => hasSub u "/about".toList,
   fun u => endsWith u ".css".toList,
   fun u => endsWith u ".js".toList,
   fun u => endsWith u ".jpg".toList,
   fun u => endsWith u ".png".toList,
   fun u => endsWith u ".gif".toList,
   fun u => endsWith u ".svg".toList,
   fun u => seqContains u ['\x7b', '\x7b'] ['\x7d', '\x7d'],
   fun u => seqContains u "%7B%7B".toList "%7D%7D".toList,
   fun u => hasSub u "CCredit".toList,
   fun u => hasSub u "immediiate".toList,
   fun u => hasSub u "nationnal".toList,
   fun u => hasSub u "remitnnow".toList,
   fun u => hasNonColonTripleSlash u]

/-- `linkHandler.isIgnored` (src/unnamed/part_001, lines 372-385): a falsy
URL is ignored; otherwise the URL is ignored when any configured pattern
matches. -/
def isIgnored (url : Str) : Bool :=
  if url = [] then true
  else ignorePatterns.any (fun p => p url)

/-- `settings.priorityPatterns` (src/src/config/settings.js, lines 72-92),
each case-insensitive regex translated to its test on lowercased URLs. -/
def priorityPatterns : List ((Str → Bool) × Nat) :=
  [(fun u => seqContains (lowerStr u) "regalia".toList "gold".toList, 25),
   (fun u => seqContains (lowerStr u) "credit".toList "card".toList, 20),
   (fun u => seqContains (lowerStr u) "fees".toList "charges".toList, 18),
   (fun u => seqContains (lowerStr u) "terms".toList "conditions".toList, 15),
   (fun u => hasSubI u "benefits".toList, 12),
   (fun u => hasSubI u "rewards".toList, 10),
   (fun u => hasSubI u "cashback".toList, 10),
   (fun u => hasSubI u "points".toList, 9),
   (fun u => hasSubI u "eligibility".toList, 8),
   (fun u => hasSubI u "insurance".toList, 8),
   (fun u => hasSubI u "coverage".toList, 8),
   (fun u => hasSubI u "tnc".toList, 15),
   (fun u => endsWith (lowerStr u) ".pdf".toList, 12),
   (fun u => hasSubI u "pricing".toList, 8),
   (fun u => hasSubI u "apply".toList, 7),
   (fun u => hasSubI u "features".toList, 9),
   (fun u => hasSubI u "offers".toList, 8),
   (fun u => hasSubI u "lounge".toList, 7),
   (fun u => hasSubI u "milestone".toList, 7)]

/-- `linkHandler.getPriorityScore` (src/unnamed/part_001, lines 387-399):
the sum of the weights of all matching priority patterns. -/
def getPriorityScore (url : Str) : Nat :=
  priorityPatterns.foldl (fun score pw => if pw.1 url then score + pw.2 else score) 0

/-- `settings.categories` (src/src/config/settings.js, lines 94-103). -/
def categoriesTable : List (Str × (Str → Bool)) :=
  [("fees".toList, fun u => hasSubI u "fees".toList || hasSubI u "charges".toList || hasSubI u "pricing".toList),
   ("terms".toList, fun u => hasSubI u "terms".toList || hasSubI u "tnc".toList || hasSubI u "conditions".toList),
   ("benefits".toList, fun u => hasSubI u "benefits".toList || hasSubI u "features".toList || hasSubI u "offers".toList),
   ("rewards".toList, fun u => hasSubI u "rewards".toList || hasSubI u "cashback".toList || hasSubI u "points".toList),
   ("eligibility".toList, fun u => hasSubI u "eligibility".toList || hasSubI u "requirements".toList || hasSubI u "criteria".toList),
   ("insurance".toList, fun u => hasSubI u "insurance".toList || hasSubI u "coverage".toList || hasSubI u "protection".toList),
   ("pdf".toList, fun u => endsWith (lowerStr u) ".pdf".toList),
   ("application".toList, fun u => hasSubI u "apply".toList || hasSubI u "application".toList)]

/-- `linkHandler.categorizeLink` (src/unnamed/part_001, lines 401-410):
first matching category, default `general`. -/
def categorizeLink (url : Str) : Str :=
  match categoriesTable.find? (fun np => np.2 url) with
  | some np => np.1
  | none => "general".toList

/-- `linkHandler.isPDFLink` (src/unnamed/part_001, lines 412-419):
the parsed pathname, lowercased, ends in `.pdf`. -/
def isPDFLink (url : Str) : Bool :=
  match parseURL url with
  | none => false
  | some u => endsWith (lowerStr u.pathname) ".pdf".toList

/-- `linkHandler.isInternalLink` (src/unnamed/part_001, lines 421-431):
the hostname equals the base domain or is a subdomain of it. -/
def isInternalLink (url baseDomain : Str) : Bool :=
  match parseURL url with
  | none => false
  | some u => u.host = baseDomain || endsWith u.host ('.' :: baseDomain)

/-- A raw anchor as `extractLinks` hands it to `processLinks`. -/
structure RawLink where
  href : Str
  text : Str := []
  title : Str := []
deriving DecidableEq, Repr

/-- A processed link record as `processLinks` builds it (the `type` and
`processedAt` fields carry no information beyond `isPDF` and the wall
clock and are omitted). -/
structure ProcessedLink where
  href : Str
  text : Str
  title : Str
  priority : Nat
  category : Str
  isPDF : Bool
deriving DecidableEq, Repr

/-- Dot-segment resolution of `new URL(href, baseUrl)` for an `./` or
`../` relative href against a base URL whose path is `/`: leading `./`
and `../` segments are consumed (at the root, `../` stays at the root). -/
def dropDotSegments : Nat → Str → Str
  | 0, s => s
  | n + 1, s =>
    if "./".toList.isPrefixOf s then dropDotSegments n (s.drop 2)
    else if "../".toList.isPrefixOf s then dropDotSegments n (s.drop 3)
    else s

/-- Resolution of one raw href to an absolute URL (src/unnamed/part_001,
lines 461-478); `none` models a `continue`. -/
def resolveHref (baseUrl href : Str) : Option Str :=
  if startsWith href "/".toList then some (baseUrl ++ href)
  else if startsWith href "http://".toList ∨ startsWith href "https://".toList then some href
  else if startsWith href "./".toList ∨ startsWith href "../".toList then
    some (baseUrl ++ '/' :: dropDotSegments href.length href)
  else if ¬ hasSub href "://".toList then some (baseUrl ++ '/' :: href)
  else none

/-- Processing of one link inside the `processLinks` loop
(src/unnamed/part_001, lines 449-524); `none` models every `continue`. -/
def processOneLink (baseUrl baseDomain : Str) (link : RawLink) : Option ProcessedLink :=
  if link.href = [] then none
  else if startsWith link.href "javascript:".toList ∨ startsWith link.href "mailto:".toList ∨
      startsWith link.href "tel:".toList ∨ link.href = "#".toList ∨ link.href = "/".toList then none
  else
    match resolveHref baseUrl link.href with
    | none => none
    | some absoluteUrl =>
      match cleanUrl absoluteUrl with
      | none => none
      | some cleanedUrl =>
        match parseURL cleanedUrl with
        | none => none
        | some urlObj =>
          let finalUrl := stripOneTrailingSlash (serializeURL { urlObj with hash := [] })
          if ¬ hasSub urlObj.host baseDomain then none
          else if isIgnored finalUrl then none
          else some
            { href := finalUrl
              text := link.text
              title := link.title
              priority := getPriorityScore finalUrl
              category := categorizeLink finalUrl
              isPDF := isPDFLink finalUrl }

/-- `Array.from(new Map(processedLinks.map(l => [l.href, l])).values())`:
key order is first insertion, the value for a key is the last one set. -/
def dedupByHref (ls : List ProcessedLink) : List ProcessedLink :=
  ls.foldl
    (fun acc l =>
      if acc.any (fun x => x.href = l.href) then
        acc.map (fun x => if x.href = l.href then l else x)
      else acc ++ [l])
    []

/-- The result record of `processLinks`. -/
structure LinkResults where
  internalLinks : List ProcessedLink
  pdfLinks : List ProcessedLink
  allLinks : List ProcessedLink
deriving Repr

/-- `linkHandler.processLinks` (src/unnamed/part_001, lines 433-560).
The unused `ignorePatterns` parameter of the source is omitted: the loop
consults `isIgnored`, which reads the configured `settings.ignorePatterns`. -/
def processLinks (links : List RawLink) (baseDomain : Str) : LinkResults :=
  let baseUrl := "https://".toList ++ baseDomain
  let processedLinks := links.filterMap (processOneLink baseUrl baseDomain)
  let uniqueLinks := dedupByHref processedLinks
  { internalLinks := uniqueLinks.filter (fun l => ¬ l.isPDF)
    pdfLinks := uniqueLinks.filter (fun l => l.isPDF)
    allLinks := uniqueLinks }

/-- `Math.min(internalLinks.length, settings.crawler.maxPages)` followed by
`internalLinks.slice(0, maxPages)` (src/unnamed/part_001, lines 67-68):
the pages the orchestrator fetches in the `PagesCrawling` phase. -/
def pagesToCrawl (internalLinks : List ProcessedLink) (maxPages : Nat) : List ProcessedLink :=
  internalLinks.take (min internalLinks.length maxPages)

/-- `pdfLinks.slice(0, Math.min(pdfLinks.length, settings.crawler.maxPDFs))`
(src/unnamed/part_001, lines 101-102). -/
def pdfsToProcess (pdfLinks : List ProcessedLink) (maxPDFs : Nat) : List ProcessedLink :=
  pdfLinks.take (min pdfLinks.length maxPDFs)

/-- The number of sources `extractCardData` hands to the aggregator when
every fetch succeeds and no page is dropped as irrelevant: the seed page
plus the crawled pages plus the processed PDFs. -/
def totalFetchResults (r : LinkResults) (maxPages maxPDFs : Nat) : Nat :=
  1 + (pagesToCrawl r.internalLinks maxPages).length + (pdfsToProcess r.pdfLinks maxPDFs).length

/-- The seed page's raw link set for the spec's end-to-end scenario:
eight internal candidates, of which three match configured ignore
patterns (`/login`, `/upi`, `/careers`), plus two PDF links. -/
def scenarioLinks : List RawLink :=
  [{ href := "/personal/pay/cards/page-one".toList },
   { href := "/personal/login-section".toList },
   { href := "/personal/pay/cards/page-two".toList },
   { href := "/payments/upi-transfers".toList },
   { href := "/personal/pay/cards/page-three".toList },
   { href := "/company/careers-portal".toList },
   { href := "/personal/pay/cards/credit-card/fees-charges".toList },
   { href := "/personal/pay/cards/credit-card/rewards".toList },
   { href := "/docs/regalia-gold-tnc.pdf".toList },
   { href := "/docs/fees-circular.pdf".toList }]

/-- The base domain of the scenario (`settings.baseDomain`). -/
def scenarioDomain : Str := "hdfcbank.com".toList

/-- Stable insertion into a priority-descending list (specification-side,
for comparison with what the orchestrator actually fetches). -/
def insertDesc (l : ProcessedLink) : List ProcessedLink → List ProcessedLink
  | [] => [l]
  | x :: xs => if x.priority < l.priority then l :: x :: xs else x :: insertDesc l xs

/-- Stable sort by `priority` descending (specification-side). -/
def sortByPriorityDesc : List ProcessedLink → List ProcessedLink
  | [] => []
  | x :: xs => insertDesc x (sortByPriorityDesc xs)

/-- Specification-side reading of the scalar merge rule: the first
non-empty value in source-arrival order. -/
def firstNonEmptyScalar : List (Option Str) → Option Str
  | [] => none
  | some s :: rest => if s ≠ [] then some s else firstNonEmptyScalar rest
  | none :: rest => firstNonEmptyScalar rest

/-- Specification-side reading of the collection merge rule: keep the
first occurrence of each (trimmed) entry, in first-seen order. -/
def dedupFirstSeen (xs : List Str) : List Str :=
  xs.foldl (fun acc x => if acc.contains x then acc else acc ++ [x]) []

/-- Specification-side reading of the per-field filled test: a non-empty
array, an object with at least one key, or a non-null, non-empty scalar. -/
def isFilledSpec : JsonVal → Bool
  | JsonVal.vnull => false
  | JsonVal.vstr s => s ≠ []
  | JsonVal.varr items => items ≠ []
  | JsonVal.vobj entries => entries ≠ []

/-- The over-long input of the C5 counterexample: a short URL padded with
1990 trailing spaces, 2008 characters in total. -/
def paddedUrl : Str := "https://x.com/page".toList ++ List.replicate 1990 ' '

/-- The over-long clean URL of the C5 witness: 2014 characters, already in
cleaned form. -/
def longAUrl : Str := "https://x.com/".toList ++ List.replicate 2000 'a'

/-- Scanner for occurrences the `([^:]\/)\/+` regex would rewrite: a
non-colon character directly followed by two slashes. -/
def hasBadDoubleSlash : Str → Bool
  | [] => false
  | a :: rest => (decide (rest.take 2 = ['/', '/']) && decide (a ≠ ':')) || hasBadDoubleSlash rest

example : jsTrim "  ab c  ".toList = "ab c".toList := by decide

example : replaceAll "CCard".toList "Card".toList "xCCCardy".toList = "xCCardy".toList := by decide

example : wsToPct "a b  c".toList = "a%20b%20c".toList := by decide

example : collapseSlashes "a//b////c".toList = "a/b/c".toList := by decide

example : collapseSlashes "https://x".toList = "https://x".toList := by decide

example : collapseSlashes ":///".toList = "://".toList := by decide

example : fixSchemeSlashes "https:".toList "https:////x".toList = "https://x".toList := by decide

example : stripOneTrailingSlash "ab/".toList = "ab".toList := by decide

example : parseURL "https://Example.com/A?q=1#f".toList =
    some ⟨"https".toList, "example.com".toList, "/A".toList, "?q=1".toList, "#f".toList⟩ := by
  decide

example : normalizeUrl "https://example.com/page/".toList = some "https://example.com/page".toList := by decide

example : normalizeUrl "https://example.com/a#frag".toList = some "https://example.com/a".toList := by decide

example : normalizeUrl "ftp://example.com/a".toList = none := by decide

example : normalizeUrl "https://example.com/CCCard".toList = some "https://example.com/CCard".toList := by decide

example : normalizeUrl "https://example.com/CCard".toList = some "https://example.com/Card".toList := by decide

example : normalizeUrl "https://example.com".toList = some "https://example.com".toList := by decide

example : normalizeUrl "https://example.com/\x7b\x7bx\x7d\x7d".toList = none := by decide

example : categorizeError rateLimitedError = RATE_LIMIT := by decide

example : shouldRetry notFoundError 1 3 = false := by decide

example : shouldRetry serverError 2 3 = true := by decide

example : shouldRetry rateLimitedError 4 3 = false := by decide

example : shouldRetry rateLimitedError 2 3 = true := by decide

example : calculateContentRelevance "upi forex demat donation money transfer".toList "https://x.com/a".toList = 0 := by decide

example : calculateContentRelevance "credit card fees".toList "https://x.com/credit-card".toList = 9 := by decide

example : crawlPageKeepsContent "upi forex".toList "https://x.com/a".toList = false := by decide

example : mergeScalarField [some "₹500".toList, some "₹900".toList] = some "₹500".toList := by decide

example : mergeScalarField [none, some [], some "a".toList] = some "a".toList := by decide

example : mergeArrayField [["Lounge Access".toList], ["lounge access ".toList]] =
    ["Lounge Access".toList, "lounge access".toList] := by decide

example : mergeArrayField [["Lounge Access".toList], ["Lounge Access ".toList]] =
    ["Lounge Access".toList] := by decide

example : (getCompletenessReport demoRecord20).totalFields = 20 := by decide

example : (getCompletenessReport demoRecord20).filledFields = 11 := by decide

lemma fillBucket_default (tok lf now : ℚ) :
    (⟨2, 1000, 5, tok, lf⟩ : TokenBucket).fillBucket now =
      ⟨2, 1000, 5, min 5 (tok + (now - lf) / 500), now⟩ := by
  simp only [TokenBucket.fillBucket]
  norm_num
  ring_nf

lemma tryTake_at_self (k t : ℚ) (hk : k ≤ 5) (h1 : 1 ≤ k) :
    (⟨2, 1000, 5, k, t⟩ : TokenBucket).tryTake t = (true, ⟨2, 1000, 5, k - 1, t⟩) := by
  simp only [TokenBucket.tryTake, fillBucket_default]
  norm_num [min_eq_right, hk, h1]

lemma tryTake_at_self_empty (t : ℚ) :
    (⟨2, 1000, 5, 0, t⟩ : TokenBucket).tryTake t = (false, ⟨2, 1000, 5, 0, t⟩) := by
  simp only [TokenBucket.tryTake, fillBucket_default]
  norm_num

lemma getWaitTime_at_self_empty (t : ℚ) :
    (⟨2, 1000, 5, 0, t⟩ : TokenBucket).getWaitTime t = (500, ⟨2, 1000, 5, 0, t⟩) := by
  simp only [TokenBucket.getWaitTime, fillBucket_default]
  norm_num

lemma tryTake_refill_half (t : ℚ) :
    (⟨2, 1000, 5, 4, t⟩ : TokenBucket).tryTake (t + 500) = (true, ⟨2, 1000, 5, 4, t + 500⟩) := by
  simp only [TokenBucket.tryTake, fillBucket_default]
  norm_num

lemma waitForRateLimit_first (t0 : ℚ) (h : 500 ≤ t0) :
    waitForRateLimit {} (freshDomainState {} t0) t0 2 =
      some (0, ⟨⟨2, 1000, 5, 4, t0⟩, t0⟩) := by
  have h' : ¬ (t0 - 0 < 500) := by rw [sub_zero, not_lt]; exact h
  have T1 : (⟨2, 1000, 5, 5, t0⟩ : TokenBucket).tryTake t0 = (true, ⟨2, 1000, 5, 4, t0⟩) := by
    have := tryTake_at_self 5 t0 (by norm_num) (by norm_num)
    rw [show (5 : ℚ) - 1 = 4 by norm_num] at this
    exact this
  simp only [waitForRateLimit, freshDomainState, TokenBucket.create]
  simp only [h', if_false, limiterLoop, T1]
  norm_num

lemma waitForRateLimit_steady (t : ℚ) :
    waitForRateLimit {} ⟨⟨2, 1000, 5, 4, t⟩, t⟩ t 2 =
      some (500, ⟨⟨2, 1000, 5, 4, t + 500⟩, t + 500⟩) := by
  have h' : t - t < 500 := by rw [sub_self]; norm_num
  have T1 : (⟨2, 1000, 5, 4, t⟩ : TokenBucket).tryTake (t + (500 - (t - t))) =
      (true, ⟨2, 1000, 5, 4, t + 500⟩) := by
    rw [show t + (500 - (t - t)) = t + 500 by ring]
    exact tryTake_refill_half t
  simp only [waitForRateLimit]
  simp only [h', if_true, limiterLoop, T1]
  norm_num

lemma acquireDelays_six (t0 : ℚ) (h : 500 ≤ t0) :
    acquireDelays 6 t0 = some [0, 500, 500, 500, 500, 500] := by
  simp only [acquireDelays, acquireSeq]
  rw [waitForRateLimit_first t0 h]
  simp only [Option.some_bind, add_zero]
  rw [waitForRateLimit_steady t0]
  simp only [Option.some_bind]
  rw [waitForRateLimit_steady (t0 + 500)]
  simp only [Option.some_bind]
  rw [waitForRateLimit_steady (t0 + 500 + 500)]
  simp only [Option.some_bind]
  rw [waitForRateLimit_steady (t0 + 500 + 500 + 500)]
  simp only [Option.some_bind]
  rw [waitForRateLimit_steady (t0 + 500 + 500 + 500 + 500)]
  simp

lemma tryTakeSeq_five (t0 : ℚ) :
    tryTakeSeq 5 (TokenBucket.create 2 1000 5 t0) t0 =
      ([true, true, true, true, true], ⟨2, 1000, 5, 0, t0⟩) := by
  have T5 := tryTake_at_self 5 t0 (by norm_num) (by norm_num)
  rw [show (5 : ℚ) - 1 = 4 by norm_num] at T5
  have T4 := tryTake_at_self 4 t0 (by norm_num) (by norm_num)
  rw [show (4 : ℚ) - 1 = 3 by norm_num] at T4
  have T3 := tryTake_at_self 3 t0 (by norm_num) (by norm_num)
  rw [show (3 : ℚ) - 1 = 2 by norm_num] at T3
  have T2 := tryTake_at_self 2 t0 (by norm_num) (by norm_num)
  rw [show (2 : ℚ) - 1 = 1 by norm_num] at T2
  have T1 := tryTake_at_self 1 t0 (by norm_num) (by norm_num)
  rw [show (1 : ℚ) - 1 = 0 by norm_num] at T1
  simp only [tryTakeSeq, TokenBucket.create, T5, T4, T3, T2, T1]

example : hasSubNotFollowedBy "https://x.com/insurance/home".toList "/insurance".toList "credit".toList = true := by decide

example : hasSubNotFollowedBy "https://x.com/insurance/credit-card".toList "/insurance".toList "credit".toList = false := by decide

example : seqContains "a\x7b\x7bz\x7d\x7db".toList ['\x7b', '\x7b'] ['\x7d', '\x7d'] = true := by decide

example : hasNonColonTripleSlash "https:///x".toList = false := by decide

example : hasNonColonTripleSlash "https://a///x".toList = true := by decide

set_option maxRecDepth 20000 in
example :
    ((processLinks scenarioLinks scenarioDomain).internalLinks.map (fun l => l.priority)) =
      [0, 0, 0, 38, 30] := by decide

set_option maxRecDepth 20000 in
example : (processLinks scenarioLinks scenarioDomain).pdfLinks.length = 2 := by decide

lemma mergeScalar_keeps (s : Str) (hs : s ≠ []) (sources : List (Option Str)) :
    sources.foldl mergeScalarStep (some s) = some s := by
  induction sources with
  | nil => rfl
  | cons v rest ih =>
    have hstep : mergeScalarStep (some s) v = some s := by
      cases v with
      | none => rfl
      | some w =>
        simp only [mergeScalarStep]
        split
        · simp [hs]
        · rfl
    simp only [List.foldl_cons, hstep, ih]

lemma mergeScalar_eq_first (sources : List (Option Str)) :
    mergeScalarField sources = firstNonEmptyScalar sources := by
  induction sources with
  | nil => rfl
  | cons v rest ih =>
    cases v with
    | none =>
      simpa only [mergeScalarField, List.foldl_cons, mergeScalarStep] using ih
    | some w =>
      by_cases hw : w = []
      · subst hw
        simp only [mergeScalarField, List.foldl_cons, mergeScalarStep, firstNonEmptyScalar,
          ne_eq, not_true_eq_false, if_false, ite_false]
        simpa only [mergeScalarField] using ih
      · simp only [mergeScalarField, List.foldl_cons, mergeScalarStep, firstNonEmptyScalar,
          ne_eq, hw, not_false_iff, if_true, ite_true]
        exact mergeScalar_keeps w hw rest

lemma jsTrim_ne_nil_of_ne (item : Str) (h : jsTrim item ≠ []) : item ≠ [] := by
  intro hitem
  subst hitem
  exact h rfl

lemma foldl_map_filter {α β γ : Type} (g : β → γ → β) (f : α → γ) (p : γ → Bool) :
    ∀ (l : List α) (b : β),
      l.foldl (fun acc x => if p (f x) then g acc (f x) else acc) b =
        ((l.map f).filter p).foldl g b := by
  intro l
  induction l with
  | nil => intro b; rfl
  | cons x rest ih =>
    intro b
    simp only [List.foldl_cons, List.map_cons, List.filter_cons]
    by_cases hp : p (f x)
    · simp only [hp, if_true, ite_true, List.foldl_cons]
      exact ih (g b (f x))
    · simp only [hp, if_false, ite_false, Bool.false_eq_true]
      exact ih b

lemma mergeArrayStep_eq (items : List Str) (cur : List Str) :
    mergeArrayStep cur items =
      ((items.map jsTrim).filter (fun t => decide (t ≠ []))).foldl
        (fun acc x => if acc.contains x then acc else acc ++ [x]) cur := by
  have hfun : (fun (acc : List Str) (item : Str) =>
      if item ≠ [] ∧ jsTrim item ≠ [] ∧ ¬ acc.contains (jsTrim item) then
        acc ++ [jsTrim item]
      else acc) =
      (fun (acc : List Str) (item : Str) =>
        if decide (jsTrim item ≠ []) then
          (if acc.contains (jsTrim item) then acc else acc ++ [jsTrim item])
        else acc) := by
    funext acc item
    by_cases ht : jsTrim item = []
    · simp [ht]
    · have hitem : item ≠ [] := jsTrim_ne_nil_of_ne item ht
      by_cases hc : acc.contains (jsTrim item) <;> simp [ht, hc, hitem]
  simp only [mergeArrayStep, hfun]
  exact foldl_map_filter (fun acc x => if acc.contains x then acc else acc ++ [x])
    jsTrim (fun t => decide (t ≠ [])) items cur

lemma mergeArrayField_eq (sources : List (List Str)) :
    mergeArrayField sources =
      dedupFirstSeen ((sources.flatten.map jsTrim).filter (fun t => decide (t ≠ []))) := by
  have main : ∀ (srcs : List (List Str)) (cur : List Str),
      srcs.foldl (fun cur items => if items ≠ [] then mergeArrayStep cur items else cur) cur =
        ((srcs.flatten.map jsTrim).filter (fun t => decide (t ≠ []))).foldl
          (fun acc x => if acc.contains x then acc else acc ++ [x]) cur := by
    intro srcs
    induction srcs with
    | nil => intro cur; rfl
    | cons items rest ih =>
      intro cur
      have houter : (if items ≠ [] then mergeArrayStep cur items else cur) =
          mergeArrayStep cur items := by
        by_cases h : items = []
        · subst h; rfl
        · simp [h]
      simp only [List.foldl_cons, houter, List.flatten_cons, List.map_append, List.filter_append,
        List.foldl_append]
      rw [mergeArrayStep_eq items cur]
      exact ih _
  simpa only [mergeArrayField, dedupFirstSeen] using main sources []

lemma processOneLink_not_ignored (bu bd : Str) (raw : RawLink) (l : ProcessedLink)
    (h : processOneLink bu bd raw = some l) : isIgnored l.href = false := by
  unfold processOneLink at h
  split at h
  · exact Option.noConfusion h
  · split at h
    · exact Option.noConfusion h
    · split at h
      · exact Option.noConfusion h
      · split at h
        · exact Option.noConfusion h
        · split at h
          · exact Option.noConfusion h
          · split at h
            · exact Option.noConfusion h
            · dsimp only at h
              split at h
              · exact Option.noConfusion h
              · rename_i hnotIgn
                cases h
                simpa using hnotIgn

lemma dedupByHref_preserves (P : ProcessedLink → Prop) (ls : List ProcessedLink)
    (hls : ∀ x ∈ ls, P x) : ∀ x ∈ dedupByHref ls, P x := by
  have main : ∀ (l : List ProcessedLink) (acc : List ProcessedLink),
      (∀ x ∈ acc, P x) → (∀ x ∈ l, P x) →
        ∀ x ∈ l.foldl
          (fun acc l =>
            if acc.any (fun x => x.href = l.href) then
              acc.map (fun x => if x.href = l.href then l else x)
            else acc ++ [l]) acc, P x := by
    intro l
    induction l with
    | nil => intro acc hacc _ x hx; exact hacc x hx
    | cons a rest ih =>
      intro acc hacc hl x hx
      simp only [List.foldl_cons] at hx
      have ha : P a := hl a (List.mem_cons_self a rest)
      have hrest : ∀ y ∈ rest, P y := fun y hy => hl y (List.mem_cons_of_mem a hy)
      refine ih _ ?_ hrest x hx
      split
      · intro y hy
        rcases List.mem_map.1 hy with ⟨z, hz, hzy⟩
        by_cases hzh : z.href = a.href
        · simp only [hzh, if_true, ite_true] at hzy
          exact hzy ▸ ha
        · simp only [hzh, if_false, ite_false] at hzy
          exact hzy ▸ hacc z hz
      · intro y hy
        rcases List.mem_append.1 hy with hy | hy
        · exact hacc y hy
        · rcases List.mem_singleton.1 hy with rfl
          exact ha
  exact main ls [] (by intro x hx; exact absurd hx (List.not_mem_nil x)) hls

lemma completeness_fold (d : List (Str × JsonVal)) :
    ∀ (t f e : Nat) (dt : List (Str × Bool)),
      (d.foldl
        (fun (acc : Nat × Nat × Nat × List (Str × Bool)) field =>
          let (total, filled, empty, details) := acc
          if fieldIsFilled field.2 then
            (total + 1, filled + 1, empty, details ++ [(field.1, true)])
          else
            (total + 1, filled, empty + 1, details ++ [(field.1, false)]))
        (t, f, e, dt)).1 = t + d.length ∧
      (d.foldl
        (fun (acc : Nat × Nat × Nat × List (Str × Bool)) field =>
          let (total, filled, empty, details) := acc
          if fieldIsFilled field.2 then
            (total + 1, filled + 1, empty, details ++ [(field.1, true)])
          else
            (total + 1, filled, empty + 1, details ++ [(field.1, false)]))
        (t, f, e, dt)).2.1 = f + (d.filter (fun p => fieldIsFilled p.2)).length := by
  induction d with
  | nil => intro t f e dt; simp
  | cons p rest ih =>
    intro t f e dt
    by_cases hp : fieldIsFilled p.2
    · simpa [hp, Nat.add_assoc, Nat.add_comm 1] using ih (t + 1) (f + 1) e (dt ++ [(p.1, true)])
    · simpa [hp, Nat.add_assoc, Nat.add_comm 1] using ih (t + 1) f (e + 1) (dt ++ [(p.1, false)])

/-- C1: the spec's three retry-policy cases evaluated on the code.
`shouldRetry(NotFound, 1, 3)` and `shouldRetry(ServerError, 2, 3)` agree
with the spec, but `shouldRetry(RateLimited, 4, 3)` returns `false`: the
`attempt >= maxAttempts` guard at the top of `shouldRetry` returns before
the `RATE_LIMIT` branch can grant its `maxAttempts + 2` budget, leaving
that branch unreachable in the extended range. -/
theorem claim_C1_retry_policy_eval :
    shouldRetry notFoundError 1 3 = false ∧
    shouldRetry serverError 2 3 = true ∧
    shouldRetry rateLimitedError 4 3 = false := by
  decide

/-- C2 counterexample: against a fresh default `DomainRateLimiter`
(rate 2/s, burst 5, min spacing 500ms) first used at time 1000, six
back-to-back `waitForRateLimit` calls are delayed [0, 500, 500, 500, 500,
500] milliseconds: the minimum inter-request spacing delays already the
second call, so the claim that all five initial acquires complete without
any imposed delay is false. -/
theorem claim_C2_counterexample :
    acquireDelays 6 1000 = some [0, 500, 500, 500, 500, 500] ∧
    ¬ ((acquireDelays 6 1000).map (fun ds => ds.take 5) = some [0, 0, 0, 0, 0]) := by
  have h := acquireDelays_six 1000 (by norm_num)
  refine ⟨h, ?_⟩
  rw [h]
  decide

/-- C2 amended: on the bare `TokenBucket` (rate 2/s, burst 5) five
immediate `tryTake` calls all succeed and the sixth must wait 500 ms; the
`DomainRateLimiter`'s additional minimum spacing makes only the first of
six immediate `waitForRateLimit` calls delay-free, each later call being
delayed exactly 500 ms (by which time the bucket has refilled, so the
spacing is the only wait). -/
theorem claim_C2_token_bucket (n : ℕ) (h : 500 ≤ n) :
    tryTakeSeq 5 (TokenBucket.create 2 1000 5 (n : ℚ)) (n : ℚ) =
      ([true, true, true, true, true], ⟨2, 1000, 5, 0, (n : ℚ)⟩) ∧
    ((⟨2, 1000, 5, 0, (n : ℚ)⟩ : TokenBucket).tryTake (n : ℚ)).1 = false ∧
    ((⟨2, 1000, 5, 0, (n : ℚ)⟩ : TokenBucket).getWaitTime (n : ℚ)).1 = 500 ∧
    acquireDelays 6 (n : ℚ) = some [0, 500, 500, 500, 500, 500] := by
  refine ⟨tryTakeSeq_five _, ?_, ?_, acquireDelays_six _ (by exact_mod_cast h)⟩
  · rw [tryTake_at_self_empty]
  · rw [getWaitTime_at_self_empty]

/-- C2 witness: the amended statement instantiated at start time 1000. -/
theorem claim_C2_token_bucket_witness :
    500 ≤ 1000 ∧ acquireDelays 6 ((1000 : ℕ) : ℚ) = some [0, 500, 500, 500, 500, 500] :=
  ⟨by decide, (claim_C2_token_bucket 1000 (by decide)).2.2.2⟩

set_option maxRecDepth 40000 in
/-- C3 counterexample: in the end-to-end scenario (five kept internal
links of priorities [0, 0, 0, 38, 30], `maxPages = 3`) the orchestrator
fetches the first three links in discovery order, of priorities
[0, 0, 0]; the three highest-priority candidates in descending order
would have priorities [38, 30, 0], so the claimed priority-descending
selection is false on the code. -/
theorem claim_C3_counterexample :
    ((pagesToCrawl (processLinks scenarioLinks scenarioDomain).internalLinks 3).map
      (fun l => l.priority) = [0, 0, 0]) ∧
    (((sortByPriorityDesc (processLinks scenarioLinks scenarioDomain).internalLinks).take 3).map
      (fun l => l.priority) = [38, 30, 0]) ∧
    pagesToCrawl (processLinks scenarioLinks scenarioDomain).internalLinks 3 ≠
      (sortByPriorityDesc (processLinks scenarioLinks scenarioDomain).internalLinks).take 3 := by
  refine ⟨by decide, by decide, ?_⟩
  intro h
  have := congrArg (List.map (fun l => l.priority)) h
  rw [show ((pagesToCrawl (processLinks scenarioLinks scenarioDomain).internalLinks 3).map
      (fun l => l.priority)) = [0, 0, 0] from by decide] at this
  rw [show (((sortByPriorityDesc (processLinks scenarioLinks scenarioDomain).internalLinks).take 3).map
      (fun l => l.priority)) = [38, 30, 0] from by decide] at this
  exact absurd this (by decide)

set_option maxRecDepth 40000 in
/-- C3 amended: the orchestrator's `PagesCrawling` and `PDFsCrawling`
phases fetch the first `maxPages` (resp. `maxPDFs`) links of the triaged
lists in their discovery order, with no sorting by `priorityScore`; in
the spec's scenario (8 internal candidates of which 3 are ignored and 5
kept, 2 PDF links, `maxPages = 3`, `maxPDFs = 1`) it fetches the first 3
kept internal pages and the first PDF, yielding 5 fetch results
including the seed. -/
theorem claim_C3_pages_selection :
    (∀ (ls : List ProcessedLink) (mp : Nat), pagesToCrawl ls mp = ls.take mp) ∧
    (∀ (ls : List ProcessedLink) (mp : Nat), pdfsToProcess ls mp = ls.take mp) ∧
    (processLinks scenarioLinks scenarioDomain).internalLinks.length = 5 ∧
    (processLinks scenarioLinks scenarioDomain).pdfLinks.length = 2 ∧
    pagesToCrawl (processLinks scenarioLinks scenarioDomain).internalLinks 3 =
      (processLinks scenarioLinks scenarioDomain).internalLinks.take 3 ∧
    pdfsToProcess (processLinks scenarioLinks scenarioDomain).pdfLinks 1 =
      (processLinks scenarioLinks scenarioDomain).pdfLinks.take 1 ∧
    totalFetchResults (processLinks scenarioLinks scenarioDomain) 3 1 = 5 := by
  have htake : ∀ (ls : List ProcessedLink) (mp : Nat), ls.take (min ls.length mp) = ls.take mp := by
    intro ls mp
    rw [min_comm, ← List.take_take, List.take_length]
  exact ⟨fun ls mp => htake ls mp, fun ls mp => htake ls mp,
    by decide, by decide, by decide, by decide, by decide⟩

/-- C6: for every scalar field, the merged value is the first non-empty
value in source-arrival order; once set it is never overwritten by later
sources; and the spec's `annualFee` example merges to `₹500`. -/
theorem claim_C6_scalar_first_wins :
    (∀ sources : List (Option Str), mergeScalarField sources = firstNonEmptyScalar sources) ∧
    (∀ (sources extra : List (Option Str)) (s : Str),
      mergeScalarField sources = some s → s ≠ [] →
        mergeScalarField (sources ++ extra) = some s) ∧
    mergeScalarField [some "₹500".toList, some "₹900".toList] = some "₹500".toList := by
  refine ⟨mergeScalar_eq_first, ?_, by decide⟩
  intro sources extra s hs hne
  simp only [mergeScalarField, List.foldl_append] at *
  rw [hs]
  exact mergeScalar_keeps s hne extra

/-- C6 witness: the no-overwrite conjunct instantiated on the spec's
`annualFee` example. -/
theorem claim_C6_scalar_first_wins_witness :
    mergeScalarField [some "₹500".toList, some "₹900".toList] = some "₹500".toList :=
  claim_C6_scalar_first_wins.2.1 [some "₹500".toList] [some "₹900".toList]
    "₹500".toList (by decide) (by decide)

/-- C7 counterexample: sources contributing `"Lounge Access"` and
`"lounge access "` merge to TWO entries, because the duplicate test
`includes(item.trim())` is case-sensitive and the trimmed forms differ in
case; the claim that this pair yields exactly one entry is false on the
code. -/
theorem claim_C7_counterexample :
    mergeArrayField [["Lounge Access".toList], ["lounge access ".toList]] =
      ["Lounge Access".toList, "lounge access".toList] ∧
    (mergeArrayField [["Lounge Access".toList], ["lounge access ".toList]]).length ≠ 1 := by
  decide

/-- C7 amended: for every collection field the merged array is the union
of all sources' entries stored in trimmed form, deduplicated by the
trimmed string under case-sensitive comparison, in first-seen order; an
exact duplicate after trimming, such as `"Lounge Access"` plus
`"Lounge Access "`, yields exactly one `"Lounge Access"` entry. -/
theorem claim_C7_collection_dedup :
    (∀ sources : List (List Str),
      mergeArrayField sources =
        dedupFirstSeen ((sources.flatten.map jsTrim).filter (fun t => decide (t ≠ [])))) ∧
    mergeArrayField [["Lounge Access".toList], ["Lounge Access ".toList]] =
      ["Lounge Access".toList] :=
  ⟨mergeArrayField_eq, by decide⟩

/-- C8: every link surviving triage, whether in the internal or the PDF
output, has passed the ignore gate: no output link matches any configured
ignore pattern, regardless of its priority score (the ignore test runs
before the priority score is even computed). -/
theorem claim_C8_ignored_excluded (links : List RawLink) (baseDomain : Str) (l : ProcessedLink)
    (h : l ∈ (processLinks links baseDomain).internalLinks ∨
      l ∈ (processLinks links baseDomain).pdfLinks) :
    isIgnored l.href = false := by
  have hall : ∀ x ∈ dedupByHref
      (links.filterMap (processOneLink ("https://".toList ++ baseDomain) baseDomain)),
      isIgnored x.href = false := by
    refine dedupByHref_preserves _ _ ?_
    intro x hx
    rcases List.mem_filterMap.1 hx with ⟨raw, _, hmap⟩
    exact processOneLink_not_ignored _ _ _ _ hmap
  rcases h with h | h <;>
    · simp only [processLinks] at h
      exact hall l (List.mem_of_mem_filter h)

set_option maxRecDepth 40000 in
/-- C8 witness: the first internal link of the end-to-end scenario is not
ignored. -/
theorem claim_C8_ignored_excluded_witness :
    isIgnored ((processLinks scenarioLinks scenarioDomain).internalLinks.headD
      { href := [], text := [], title := [], priority := 0, category := [], isPDF := false }).href
      = false :=
  claim_C8_ignored_excluded scenarioLinks scenarioDomain _ (Or.inl (by decide))

/-- C9: the completeness report is a pure function of the merged record
(recomputed in full on each call; the embedding of the side-effect-free
source is itself a function, so repeated calls coincide definitionally);
it counts every top-level field, counts a field as filled exactly when it
is a non-empty array, an object with at least one key, or a non-null
non-empty scalar, reports `percentage = filled / total * 100`, and a
record with 20 fields of which 11 are non-empty reports 55. -/
theorem claim_C9_completeness :
    (∀ d : List (Str × JsonVal),
      (getCompletenessReport d).totalFields = d.length ∧
      (getCompletenessReport d).filledFields = (d.filter (fun p => fieldIsFilled p.2)).length ∧
      (getCompletenessReport d).completenessPercentage =
        ((getCompletenessReport d).filledFields : ℚ) /
          ((getCompletenessReport d).totalFields : ℚ) * 100) ∧
    (∀ v : JsonVal, fieldIsFilled v = isFilledSpec v) ∧
    (getCompletenessReport demoRecord20).completenessPercentage = 55 := by
  have hcounts : ∀ d : List (Str × JsonVal),
      (getCompletenessReport d).totalFields = d.length ∧
      (getCompletenessReport d).filledFields = (d.filter (fun p => fieldIsFilled p.2)).length := by
    intro d
    have h := completeness_fold d 0 0 0 []
    simpa only [getCompletenessReport, Nat.zero_add] using h
  refine ⟨fun d => ⟨(hcounts d).1, (hcounts d).2, rfl⟩, ?_, ?_⟩
  · intro v
    cases v with
    | vnull => rfl
    | vstr s => by_cases h : s = [] <;> simp [fieldIsFilled, isFilledSpec, h]
    | varr items => cases items <;> simp [fieldIsFilled, isFilledSpec]
    | vobj entries => cases entries <;> simp [fieldIsFilled, isFilledSpec]
  · have h1 : (getCompletenessReport demoRecord20).filledFields = 11 := by decide
    have h2 : (getCompletenessReport demoRecord20).totalFields = 20 := by decide
    have h3 : (getCompletenessReport demoRecord20).completenessPercentage =
        ((getCompletenessReport demoRecord20).filledFields : ℚ) /
          ((getCompletenessReport demoRecord20).totalFields : ℚ) * 100 := rfl
    rw [h3, h1, h2]
    norm_num

/-- C10: the relevance score is clamped at zero by `Math.max(0, score)`,
so for every extracted text and URL the score `crawlPage` compares with
its minimum threshold is a non-negative integer: no accumulation of
off-topic keyword penalties can drive it negative. -/
theorem claim_C10_relevance_nonneg :
    ∀ (fullText url : Str), 0 ≤ calculateContentRelevance fullText url := by
  intro fullText url
  unfold calculateContentRelevance
  exact le_max_left 0 _

lemma infix_concat_iff {p xs : Str} {c : Char} (hp : p ≠ []) (hc : c ∉ p) :
    p <:+: xs ++ [c] ↔ p <:+: xs := by
  constructor
  · rintro ⟨s, t, hst⟩
    rcases List.eq_nil_or_concat t with rfl | ⟨t', d, rfl⟩
    · rcases List.eq_nil_or_concat p with rfl | ⟨p', e, rfl⟩
      · exact absurd rfl hp
      · simp only [List.concat_eq_append, List.append_nil] at hst hc
        have hlast : e = c := by
          have h1 : (s ++ (p' ++ [e])).getLast? = some e := by
            rw [← List.append_assoc]
            exact List.getLast?_concat _
          have h2 : (xs ++ [c]).getLast? = some c := List.getLast?_concat _
          rw [hst, h2] at h1
          exact (Option.some.inj h1).symm
        exact absurd (hlast ▸ List.mem_append_right p' (List.mem_singleton.2 rfl)) hc
    · have hd : (s ++ p ++ t') ++ [d] = xs ++ [c] := by
        rw [← hst]
        simp [List.append_assoc]
      have := (List.append_inj' hd rfl).1
      exact ⟨s, t', this⟩
  · rintro ⟨s, t, rfl⟩
    exact ⟨s, t ++ [c], by simp [List.append_assoc]⟩

lemma infix_append_spaces_iff {p a : Str} {n : Nat} (hp : p ≠ []) (hsp : ' ' ∉ p) :
    p <:+: a ++ List.replicate n ' ' ↔ p <:+: a := by
  induction n with
  | zero => simp
  | succ m ih =>
    rw [List.replicate_succ' m ' ', ← List.append_assoc, infix_concat_iff hp hsp]
    exact ih

lemma hasSub_append_spaces (a p : Str) (n : Nat) (hp : p ≠ []) (hsp : ' ' ∉ p) :
    hasSub (a ++ List.replicate n ' ') p = hasSub a p := by
  simp only [hasSub]
  exact decide_eq_decide.2 (infix_append_spaces_iff hp hsp)

lemma dropWhile_spaces_append (l : Str) (n : Nat) :
    List.dropWhile isWs (List.replicate n ' ' ++ l) = List.dropWhile isWs l := by
  induction n with
  | zero => rfl
  | succ m ih =>
    rw [List.replicate_succ, List.cons_append, List.dropWhile_cons]
    simp only [show isWs ' ' = true from rfl, if_true, ite_true]
    exact ih

lemma jsTrim_append_spaces (c : Char) (t : Str) (n : Nat) (hc : isWs c = false) :
    jsTrim ((c :: t) ++ List.replicate n ' ') = jsTrim (c :: t) := by
  unfold jsTrim
  rw [List.cons_append, List.dropWhile_cons, List.dropWhile_cons]
  simp only [hc, Bool.false_eq_true, if_false, ite_false]
  rw [show c :: (t ++ List.replicate n ' ') =
    (c :: t) ++ List.replicate n ' ' from rfl, List.reverse_append, List.reverse_replicate,
    dropWhile_spaces_append]

lemma cleanUrl_paddedUrl : cleanUrl paddedUrl = cleanUrl "https://x.com/page".toList := by
  have hne : paddedUrl ≠ [] := by
    rw [show paddedUrl = 'h' :: ("ttps://x.com/page".toList ++ List.replicate 1990 ' ') from rfl]
    exact List.cons_ne_nil _ _
  have h1 := hasSub_append_spaces "https://x.com/page".toList ['\x7b', '\x7b'] 1990
    (by decide) (by decide)
  have h2 := hasSub_append_spaces "https://x.com/page".toList "%7B%7B".toList 1990
    (by decide) (by decide)
  have h3 := hasSub_append_spaces "https://x.com/page".toList ['\x7d', '\x7d'] 1990
    (by decide) (by decide)
  have h4 := hasSub_append_spaces "https://x.com/page".toList "%7D%7D".toList 1990
    (by decide) (by decide)
  have hmark : ¬ ((hasSub paddedUrl ['\x7b', '\x7b'] || hasSub paddedUrl "%7B%7B".toList ||
      hasSub paddedUrl ['\x7d', '\x7d'] || hasSub paddedUrl "%7D%7D".toList) = true) := by
    rw [show paddedUrl = "https://x.com/page".toList ++ List.replicate 1990 ' ' from rfl,
      h1, h2, h3, h4]
    decide
  have htrim : jsTrim paddedUrl = jsTrim "https://x.com/page".toList := by
    rw [show paddedUrl = ('h' :: "ttps://x.com/page".toList) ++ List.replicate 1990 ' ' from rfl]
    exact jsTrim_append_spaces 'h' "ttps://x.com/page".toList 1990 (by decide)
  unfold cleanUrl
  rw [if_neg hne, if_neg hmark, if_neg (show ¬ ("https://x.com/page".toList = []) by decide),
    if_neg (show ¬ ((hasSub "https://x.com/page".toList ['\x7b', '\x7b'] ||
      hasSub "https://x.com/page".toList "%7B%7B".toList ||
      hasSub "https://x.com/page".toList ['\x7d', '\x7d'] ||
      hasSub "https://x.com/page".toList "%7D%7D".toList) = true) by decide)]
  rw [htrim]

lemma isValidUrl_false_of_long (c : Str) (h : 2000 < c.length) : isValidUrl c = false := by
  unfold isValidUrl
  cases hp : parseURL c with
  | none => rfl
  | some u =>
    repeat' split
    any_goals rfl

lemma isValidUrl_false_of_scheme (c : Str) (r : URLRec) (hp : parseURL c = some r)
    (hs : ¬ (r.scheme = "http".toList ∨ r.scheme = "https".toList)) : isValidUrl c = false := by
  unfold isValidUrl
  rw [hp]
  dsimp only
  rw [if_pos hs]

lemma normalizeUrl_none_of_invalid (u c : Str) (hc : cleanUrl u = some c)
    (hv : isValidUrl c = false) : normalizeUrl u = none := by
  unfold normalizeUrl
  rw [hc]
  dsimp only
  simp [hv]

/-- C5 counterexample: a 2008-character input (a valid URL padded with
trailing whitespace) on which `normalize` returns a URL, not `null`: the
2000-character bound is only checked after trimming and cleaning, so an
over-long raw input can still normalize successfully.  The claim's
`length > 2000 implies null` is therefore false for input length. -/
theorem claim_C5_counterexample :
    2000 < paddedUrl.length ∧
    normalizeUrl paddedUrl = some "https://x.com/page".toList := by
  constructor
  · rw [show paddedUrl = "https://x.com/page".toList ++ List.replicate 1990 ' ' from rfl]
    rw [List.length_append, List.length_replicate]
    norm_num
  · unfold normalizeUrl
    rw [cleanUrl_paddedUrl]
    rw [show cleanUrl "https://x.com/page".toList = some "https://x.com/page".toList from by decide]
    decide

/-- C5 amended: `normalize` returns `null` (never an exception — the
embedding is total) for every input containing the template-injection
markers or their percent-encoded forms; for every input whose cleaned
form parses to a scheme other than http/https; and for every input whose
cleaned form exceeds 2000 characters.  The raw-input length clause of the
original claim is false (see the counterexample): trailing whitespace is
trimmed and corruption repairs can shorten the URL before the length
check runs. -/
theorem claim_C5_normalize_null (u : Str) :
    ((hasSub u ['\x7b', '\x7b'] || hasSub u "%7B%7B".toList ||
        hasSub u ['\x7d', '\x7d'] || hasSub u "%7D%7D".toList) = true →
      normalizeUrl u = none) ∧
    (∀ c : Str, cleanUrl u = some c → 2000 < c.length → normalizeUrl u = none) ∧
    (∀ (c : Str) (r : URLRec), cleanUrl u = some c → parseURL c = some r →
      ¬ (r.scheme = "http".toList ∨ r.scheme = "https".toList) → normalizeUrl u = none) := by
  refine ⟨?_, ?_, ?_⟩
  · intro hmark
    have hcu : cleanUrl u = none := by
      unfold cleanUrl
      split <;> simp [hmark]
    unfold normalizeUrl
    rw [hcu]
  · intro c hc hlen
    exact normalizeUrl_none_of_invalid u c hc (isValidUrl_false_of_long c hlen)
  · intro c r hc hp hs
    exact normalizeUrl_none_of_invalid u c hc (isValidUrl_false_of_scheme c r hp hs)

lemma longAUrl_long : 2000 < longAUrl.length := by
  rw [show longAUrl = "https://x.com/".toList ++ List.replicate 2000 'a' from rfl,
    List.length_append, List.length_replicate]
  norm_num

lemma infix_concat_iff_getLast {p xs : Str} {c : Char} (hp : p ≠ [])
    (hc : p.getLast? ≠ some c) : p <:+: xs ++ [c] ↔ p <:+: xs := by
  constructor
  · rintro ⟨s, t, hst⟩
    rcases List.eq_nil_or_concat t with rfl | ⟨t', d, rfl⟩
    · rcases List.eq_nil_or_concat p with rfl | ⟨p', e, rfl⟩
      · exact absurd rfl hp
      · simp only [List.concat_eq_append, List.append_nil] at hst hc
        have hlast : e = c := by
          have h1 : (s ++ (p' ++ [e])).getLast? = some e := by
            rw [← List.append_assoc]
            exact List.getLast?_concat _
          have h2 : (xs ++ [c]).getLast? = some c := List.getLast?_concat _
          rw [hst, h2] at h1
          exact (Option.some.inj h1).symm
        exact absurd (hlast ▸ List.getLast?_concat p') hc
    · have hd : (s ++ p ++ t') ++ [d] = xs ++ [c] := by
        rw [← hst]
        simp [List.append_assoc]
      have := (List.append_inj' hd rfl).1
      exact ⟨s, t', this⟩
  · rintro ⟨s, t, rfl⟩
    exact ⟨s, t ++ [c], by simp [List.append_assoc]⟩

lemma infix_append_replicate_iff {p a : Str} {n : Nat} {c : Char} (hp : p ≠ [])
    (hc : p.getLast? ≠ some c) : p <:+: a ++ List.replicate n c ↔ p <:+: a := by
  induction n with
  | zero => simp
  | succ m ih =>
    rw [List.replicate_succ' m c, ← List.append_assoc, infix_concat_iff_getLast hp hc]
    exact ih

lemma hasSub_append_replicate (a p : Str) (n : Nat) (c : Char) (hp : p ≠ [])
    (hc : p.getLast? ≠ some c) :
    hasSub (a ++ List.replicate n c) p = hasSub a p := by
  simp only [hasSub]
  exact decide_eq_decide.2 (infix_append_replicate_iff hp hc)

lemma dropWhile_all_neg {p : Char → Bool} {s : Str} (h : ∀ x ∈ s, p x = false) :
    s.dropWhile p = s := by
  cases s with
  | nil => rfl
  | cons c rest =>
    rw [List.dropWhile_cons, if_neg]
    rw [h c (List.mem_cons_self c rest)]
    simp

lemma jsTrim_id_of_no_ws {s : Str} (h : ∀ x ∈ s, isWs x = false) : jsTrim s = s := by
  unfold jsTrim
  rw [dropWhile_all_neg h, dropWhile_all_neg (by
    intro x hx
    exact h x (List.mem_reverse.1 hx)), List.reverse_reverse]

lemma no_ws_longAUrl : ∀ x ∈ longAUrl, isWs x = false := by
  intro x hx
  rcases List.mem_append.1 hx with hx | hx
  · have hbase : ∀ y ∈ "https://x.com/".toList, isWs y = false := by decide
    exact hbase x hx
  · rw [List.eq_of_mem_replicate hx]
    decide

lemma wsToPctAux_id {s : Str} (h : ∀ x ∈ s, isWs x = false) :
    ∀ fuel, wsToPctAux fuel s = s := by
  induction s with
  | nil => intro fuel; cases fuel <;> rfl
  | cons c rest ih =>
    intro fuel
    cases fuel with
    | zero => rfl
    | succ n =>
      rw [wsToPctAux, if_neg (by rw [h c (List.mem_cons_self c rest)]; simp)]
      rw [ih (fun x hx => h x (List.mem_cons_of_mem c hx)) n]

lemma fixSchemeSlashesAux_id {lit s : Str} (h : hasSub s lit = false) :
    ∀ fuel, fixSchemeSlashesAux lit fuel s = s := by
  induction s with
  | nil => intro fuel; cases fuel <;> rfl
  | cons c rest ih =>
    intro fuel
    cases fuel with
    | zero => rfl
    | succ n =>
      have hpre : ¬ (lit.isPrefixOf (c :: rest) = true ∧ 0 < lit.length) := by
        rintro ⟨h1, h2⟩
        have : lit <:+: c :: rest := (List.isPrefixOf_iff_prefix.1 h1).isInfix
        simp only [hasSub, decide_eq_false_iff_not] at h
        exact h this
      rw [fixSchemeSlashesAux, if_neg (by
        rintro ⟨h1, h2, h3⟩
        exact hpre ⟨h2, h1⟩)]
      have hrest : hasSub rest lit = false := by
        simp only [hasSub, decide_eq_false_iff_not] at h ⊢
        intro hin
        exact h (hin.trans (List.suffix_cons c rest).isInfix)
      rw [ih hrest n]

lemma fixSchemeSlashesAux_head {lit rest : Str} (hlit : lit ≠ [])
    (hhead : rest.head? ≠ some '/') (hno : hasSub rest lit = false) :
    ∀ fuel, fixSchemeSlashesAux lit (fuel + 1) (lit ++ '/' :: '/' :: rest) =
      lit ++ '/' :: '/' :: rest := by
  intro fuel
  cases lit with
  | nil => exact absurd rfl hlit
  | cons l0 lit' =>
    rw [List.cons_append, fixSchemeSlashesAux, if_pos ?_]
    · have hdrop : ((l0 :: (lit' ++ '/' :: '/' :: rest)).drop (l0 :: lit').length) = '/' :: '/' :: rest := by
        rw [show l0 :: (lit' ++ '/' :: '/' :: rest) = (l0 :: lit') ++ '/' :: '/' :: rest from rfl]
        exact List.drop_left _ _
      rw [hdrop]
      have hdw : ('/' :: '/' :: rest).dropWhile (· = '/') = rest.dropWhile (· = '/') := by
        rw [List.dropWhile_cons, List.dropWhile_cons]
        simp
      have hdw2 : rest.dropWhile (· = '/') = rest := by
        cases rest with
        | nil => rfl
        | cons r rs =>
          rw [List.dropWhile_cons, if_neg]
          simp only [List.head?_cons, ne_eq, Option.some.injEq] at hhead
          simp [hhead]
      rw [hdw, hdw2, fixSchemeSlashesAux_id hno fuel]
      rfl
    · refine ⟨by simp, ?_, ?_⟩
      · rw [show l0 :: (lit' ++ '/' :: '/' :: rest) = (l0 :: lit') ++ '/' :: '/' :: rest from rfl]
        exact List.isPrefixOf_iff_prefix.2 (List.prefix_append _ _)
      · rw [show l0 :: (lit' ++ '/' :: '/' :: rest) = (l0 :: lit') ++ '/' :: '/' :: rest from rfl,
          List.drop_left]
        rfl

lemma take_two_replicate_ne (n : Nat) : ((List.replicate n 'a').take 2 = ['/', '/']) = False := by
  rw [List.take_replicate]
  simp only [eq_iff_iff, iff_false]
  intro hab
  have hmem : '/' ∈ List.replicate (min 2 n) 'a' := by
    rw [hab]
    simp
  exact absurd (List.eq_of_mem_replicate hmem) (by decide)

lemma hasBad_replicate_a : ∀ n : Nat, hasBadDoubleSlash (List.replicate n 'a') = false := by
  intro n
  induction n with
  | zero => rfl
  | succ m ih =>
    rw [List.replicate_succ, hasBadDoubleSlash, Bool.or_eq_false_iff]
    refine ⟨?_, ih⟩
    rw [decide_eq_false (show ¬ ((List.replicate m 'a').take 2 = ['/', '/']) from
      fun hab => (take_two_replicate_ne m) ▸ hab)]
    rfl

lemma hasBad_pad (n : Nat) : ∀ (s : Str), hasBadDoubleSlash s = false →
    hasBadDoubleSlash (s ++ List.replicate n 'a') = false := by
  intro s
  induction s with
  | nil =>
    intro _
    rw [List.nil_append]
    exact hasBad_replicate_a n
  | cons c rest ih =>
    intro h
    rw [hasBadDoubleSlash, Bool.or_eq_false_iff] at h
    rw [List.cons_append, hasBadDoubleSlash, Bool.or_eq_false_iff]
    refine ⟨?_, ih h.2⟩
    rw [Bool.and_eq_false_iff] at h ⊢
    rcases h.1 with h1 | h1
    · left
      rw [decide_eq_false_iff_not] at h1 ⊢
      intro habs
      cases rest with
      | nil =>
        rw [List.nil_append] at habs
        exact (take_two_replicate_ne n) ▸ habs
      | cons d rest2 =>
        cases rest2 with
        | nil =>
          rcases n with _ | m
          · simp at habs
          · rw [show ([d] ++ List.replicate (m + 1) 'a') = d :: List.replicate (m + 1) 'a'
                from rfl, List.replicate_succ] at habs
            simp at habs
        | cons e rest3 =>
          rw [show ((d :: e :: rest3) ++ List.replicate n 'a').take 2 = [d, e] from rfl] at habs
          exact h1 habs
    · right
      exact h1

lemma collapseSlashesAux_id : ∀ (fuel : Nat) (s : Str), hasBadDoubleSlash s = false →
    collapseSlashesAux fuel s = s := by
  intro fuel
  induction fuel with
  | zero => intro s _; cases s <;> rfl
  | succ n ih =>
    intro s hs
    cases s with
    | nil => rfl
    | cons a rest =>
      rw [hasBadDoubleSlash, Bool.or_eq_false_iff] at hs
      rw [collapseSlashesAux, if_neg (by
        rintro ⟨h1, h2⟩
        rw [decide_eq_true h1, decide_eq_true h2] at hs
        exact Bool.noConfusion hs.1)]
      rw [ih rest hs.2]

lemma longAUrl_ne_nil : longAUrl ≠ [] := by
  rw [show longAUrl = 'h' :: ("ttps://x.com/".toList ++ List.replicate 2000 'a') from rfl]
  exact List.cons_ne_nil _ _

lemma hasSub_longAUrl_false (p : Str) (h1 : p ≠ []) (h2 : p.getLast? ≠ some 'a')
    (h3 : hasSub "https://x.com/".toList p = false) : hasSub longAUrl p = false := by
  rw [show longAUrl = "https://x.com/".toList ++ List.replicate 2000 'a' from rfl,
    hasSub_append_replicate _ _ _ _ h1 h2]
  exact h3

lemma fixSchemeSlashes_https_longAUrl :
    fixSchemeSlashes "https:".toList longAUrl = longAUrl := by
  have hlen : longAUrl.length = 2013 + 1 := by
    rw [show longAUrl = "https://x.com/".toList ++ List.replicate 2000 'a' from rfl,
      List.length_append, List.length_replicate]
    decide
  unfold fixSchemeSlashes
  rw [hlen]
  rw [show longAUrl = "https:".toList ++ '/' :: '/' ::
    ("x.com/".toList ++ List.replicate 2000 'a') from rfl]
  exact fixSchemeSlashesAux_head (by decide)
    (by rw [show ("x.com/".toList ++ List.replicate 2000 'a') =
      'x' :: (".com/".toList ++ List.replicate 2000 'a') from rfl]; decide)
    (by rw [hasSub_append_replicate _ _ _ _ (by decide) (by decide)]; decide) 2013

lemma cleanUrl_longAUrl : cleanUrl longAUrl = some longAUrl := by
  have htrim : jsTrim longAUrl = longAUrl := jsTrim_id_of_no_ws no_ws_longAUrl
  have hr01 : hasSub longAUrl "CCredit".toList = false :=
    hasSub_longAUrl_false _ (by decide) (by decide) (by decide)
  have hr02 : hasSub longAUrl "Carrds".toList = false :=
    hasSub_longAUrl_false _ (by decide) (by decide) (by decide)
  have hr03 : hasSub longAUrl "Creditt".toList = false :=
    hasSub_longAUrl_false _ (by decide) (by decide) (by decide)
  have hr04 : hasSub longAUrl "CCard".toList = false :=
    hasSub_longAUrl_false _ (by decide) (by decide) (by decide)
  have hr05 : hasSub longAUrl "Supeer".toList = false :=
    hasSub_longAUrl_false _ (by decide) (by decide) (by decide)
  have hr06 : hasSub longAUrl "Preemium".toList = false :=
    hasSub_longAUrl_false _ (by decide) (by decide) (by decide)
  have hr07 : hasSub longAUrl "immediiate".toList = false :=
    hasSub_longAUrl_false _ (by decide) (by decide) (by decide)
  have hr08 : hasSub longAUrl "nationnal".toList = false :=
    hasSub_longAUrl_false _ (by decide) (by decide) (by decide)
  have hr09 : hasSub longAUrl "remitnnow".toList = false :=
    hasSub_longAUrl_false _ (by decide) (by decide) (by decide)
  have hr10 : hasSub longAUrl "ttime".toList = false :=
    hasSub_longAUrl_false _ (by decide) (by decide) (by decide)
  have hr11 : hasSub longAUrl "Cardds".toList = false :=
    hasSub_longAUrl_false _ (by decide) (by decide) (by decide)
  have hr12 : hasSub longAUrl "Creddit".toList = false :=
    hasSub_longAUrl_false _ (by decide) (by decide) (by decide)
  have hr13 : hasSub longAUrl "ppay".toList = false :=
    hasSub_longAUrl_false _ (by decide) (by decide) (by decide)
  have hr14 : hasSub longAUrl "donattions".toList = false :=
    hasSub_longAUrl_false _ (by decide) (by decide) (by decide)
  have hr15 : hasSub longAUrl "%%20".toList = false :=
    hasSub_longAUrl_false _ (by decide) (by decide) (by decide)
  have hr16 : hasSub longAUrl "%20%20".toList = false :=
    hasSub_longAUrl_false _ (by decide) (by decide) (by decide)
  have hm1 : hasSub longAUrl ['\x7b', '\x7b'] = false :=
    hasSub_longAUrl_false _ (by decide) (by decide) (by decide)
  have hm2 : hasSub longAUrl "%7B%7B".toList = false :=
    hasSub_longAUrl_false _ (by decide) (by decide) (by decide)
  have hm3 : hasSub longAUrl ['\x7d', '\x7d'] = false :=
    hasSub_longAUrl_false _ (by decide) (by decide) (by decide)
  have hm4 : hasSub longAUrl "%7D%7D".toList = false :=
    hasSub_longAUrl_false _ (by decide) (by decide) (by decide)
  have hws : wsToPct longAUrl = longAUrl := wsToPctAux_id no_ws_longAUrl _
  have hfix2 : fixSchemeSlashes "http:".toList longAUrl = longAUrl :=
    fixSchemeSlashesAux_id (hasSub_longAUrl_false _ (by decide) (by decide) (by decide)) _
  have hcol : collapseSlashes longAUrl = longAUrl :=
    collapseSlashesAux_id _ _ (by
      rw [show longAUrl = "https://x.com/".toList ++ List.replicate 2000 'a' from rfl]
      exact hasBad_pad 2000 _ (by decide))
  have hstrip : stripOneTrailingSlash longAUrl = longAUrl := by
    unfold stripOneTrailingSlash
    rw [if_neg]
    rw [show longAUrl = ("https://x.com/".toList ++ List.replicate 1999 'a') ++ ['a'] from by
      rw [show longAUrl = "https://x.com/".toList ++ List.replicate 2000 'a' from rfl,
        show (2000 : Nat) = 1999 + 1 from rfl, List.replicate_succ' 1999 'a',
        List.append_assoc]]
    rw [List.getLast?_concat]
    decide
  unfold cleanUrl
  rw [if_neg (show ¬ (longAUrl = []) from longAUrl_ne_nil),
    if_neg (by rw [hm1, hm2, hm3, hm4]; decide)]
  simp only [htrim, hr01, hr02, hr03, hr04, hr05, hr06, hr07, hr08, hr09, hr10, hr11,
    hr12, hr13, hr14, hr15, hr16, Bool.false_eq_true, if_false, ite_false, hws,
    fixSchemeSlashes_https_longAUrl, hfix2, hcol, hstrip]

/-- C5 witness: the three null conditions instantiated on concrete
inputs — a URL with template markers, a URL whose cleaned form is 2014
characters long, and an `ftp:` URL. -/
theorem claim_C5_normalize_null_witness :
    normalizeUrl "https://x.com/\x7b\x7bslug\x7d\x7d".toList = none ∧
    normalizeUrl longAUrl = none ∧
    normalizeUrl "ftp://x.com/file".toList = none := by
  refine ⟨(claim_C5_normalize_null _).1 (by decide), ?_, ?_⟩
  · exact (claim_C5_normalize_null _).2.1 longAUrl cleanUrl_longAUrl longAUrl_long
  · exact (claim_C5_normalize_null _).2.2 "ftp://x.com/file".toList
      ⟨"ftp".toList, "x.com".toList, "/file".toList, [], []⟩ (by decide) (by decide) (by decide)

lemma toNat_ofNat_valid (n : Nat) (h : n < 55296) : (Char.ofNat n).toNat = n := by
  have hv : n.isValidChar := Or.inl h
  rw [Char.ofNat, dif_pos hv]
  show (Char.ofNatAux n hv).toNat = n
  rfl

lemma char_eq_of_toNat_eq {a b : Char} (h : a.toNat = b.toNat) : a = b := by
  have h2 := congrArg Char.ofNat h
  rwa [Char.ofNat_toNat, Char.ofNat_toNat] at h2

lemma char_eq_iff_toNat {a b : Char} : a = b ↔ a.toNat = b.toNat :=
  ⟨fun h => congrArg Char.toNat h, char_eq_of_toNat_eq⟩

lemma isUpper_iff (c : Char) : c.isUpper = true ↔ 65 ≤ c.toNat ∧ c.toNat ≤ 90 := by
  rw [Char.isUpper, Bool.and_eq_true, decide_eq_true_iff, decide_eq_true_iff]
  exact and_congr Iff.rfl Iff.rfl

lemma isLower_iff (c : Char) : c.isLower = true ↔ 97 ≤ c.toNat ∧ c.toNat ≤ 122 := by
  rw [Char.isLower, Bool.and_eq_true, decide_eq_true_iff, decide_eq_true_iff]
  exact and_congr Iff.rfl Iff.rfl

lemma isDigit_iff (c : Char) : c.isDigit = true ↔ 48 ≤ c.toNat ∧ c.toNat ≤ 57 := by
  rw [Char.isDigit, Bool.and_eq_true, decide_eq_true_iff, decide_eq_true_iff]
  exact and_congr Iff.rfl Iff.rfl

lemma isAlpha_iff (c : Char) : c.isAlpha = true ↔
    (65 ≤ c.toNat ∧ c.toNat ≤ 90) ∨ (97 ≤ c.toNat ∧ c.toNat ≤ 122) := by
  rw [Char.isAlpha, Bool.or_eq_true, isUpper_iff, isLower_iff]

lemma toLower_toNat (c : Char) :
    c.toLower.toNat = if 65 ≤ c.toNat ∧ c.toNat ≤ 90 then c.toNat + 32 else c.toNat := by
  rw [Char.toLower]
  split
  next h => exact toNat_ofNat_valid _ (by omega)
  next h => rfl

lemma toLower_idem (c : Char) : c.toLower.toLower = c.toLower := by
  apply char_eq_of_toNat_eq
  by_cases h : 65 ≤ c.toNat ∧ c.toNat ≤ 90
  · have h1 : c.toLower.toNat = c.toNat + 32 := by rw [toLower_toNat, if_pos h]
    rw [toLower_toNat, h1, if_neg (by omega)]
  · have h1 : c.toLower.toNat = c.toNat := by rw [toLower_toNat, if_neg h]
    rw [toLower_toNat, h1, if_neg h]

lemma lowerStr_idem (s : Str) : lowerStr (lowerStr s) = lowerStr s := by
  simp only [lowerStr, List.map_map]
  exact List.map_congr_left fun c _ => toLower_idem c

lemma toLower_eq_low {c d : Char} (hd : d.toNat < 65) : c.toLower = d ↔ c = d := by
  constructor
  · intro h
    have h1 := congrArg Char.toNat h
    rw [toLower_toNat] at h1
    by_cases hc : 65 ≤ c.toNat ∧ c.toNat ≤ 90
    · rw [if_pos hc] at h1
      exact absurd h1 (by omega)
    · rw [if_neg hc] at h1
      exact char_eq_of_toNat_eq h1
  · intro h
    subst h
    apply char_eq_of_toNat_eq
    rw [toLower_toNat, if_neg (by omega)]

lemma isSchemeChar_iff (c : Char) : isSchemeChar c = true ↔
    (48 ≤ c.toNat ∧ c.toNat ≤ 57) ∨ (65 ≤ c.toNat ∧ c.toNat ≤ 90) ∨
    (97 ≤ c.toNat ∧ c.toNat ≤ 122) ∨ c.toNat = 43 ∨ c.toNat = 45 ∨ c.toNat = 46 := by
  simp only [isSchemeChar, Char.isAlphanum, Bool.or_eq_true, decide_eq_true_eq,
    isAlpha_iff, isDigit_iff, char_eq_iff_toNat]
  rw [show ('+' : Char).toNat = 43 from rfl, show ('-' : Char).toNat = 45 from rfl,
    show ('.' : Char).toNat = 46 from rfl]
  omega

lemma isSchemeChar_toLower {c : Char} (h : isSchemeChar c = true) :
    isSchemeChar c.toLower = true := by
  rw [isSchemeChar_iff] at h ⊢
  rw [toLower_toNat]
  split <;> omega

lemma isAlpha_toLower {c : Char} (h : c.isAlpha = true) : c.toLower.isAlpha = true := by
  rw [isAlpha_iff] at h ⊢
  rw [toLower_toNat]
  split <;> omega

lemma validSchemeStr_lower (s : Str) (h : validSchemeStr s = true) :
    validSchemeStr (lowerStr s) = true := by
  cases s with
  | nil => exact absurd h (by decide)
  | cons c rest =>
    have he : validSchemeStr (c :: rest) = (c.isAlpha && rest.all isSchemeChar) := rfl
    rw [he, Bool.and_eq_true] at h
    have he2 : validSchemeStr (lowerStr (c :: rest)) =
        (c.toLower.isAlpha && (rest.map Char.toLower).all isSchemeChar) := rfl
    rw [he2, Bool.and_eq_true]
    rw [List.all_eq_true] at h ⊢
    refine ⟨isAlpha_toLower h.1, ?_⟩
    intro x hx
    rcases List.mem_map.1 hx with ⟨y, hy, rfl⟩
    exact isSchemeChar_toLower (h.2 y hy)

lemma schemeStr_not_sep {s : Str} (h : validSchemeStr s = true) :
    ∀ c ∈ s, ¬(c = ':' ∨ c = '/' ∨ c = '?' ∨ c = '#') := by
  cases s with
  | nil => intro c hc; exact absurd hc (List.not_mem_nil c)
  | cons a rest =>
    have he : validSchemeStr (a :: rest) = (a.isAlpha && rest.all isSchemeChar) := rfl
    rw [he, Bool.and_eq_true, List.all_eq_true] at h
    intro c hc
    have hcn : (48 ≤ c.toNat ∧ c.toNat ≤ 57) ∨ (65 ≤ c.toNat ∧ c.toNat ≤ 90) ∨
        (97 ≤ c.toNat ∧ c.toNat ≤ 122) ∨ c.toNat = 43 ∨ c.toNat = 45 ∨ c.toNat = 46 := by
      rcases List.mem_cons.1 hc with rfl | hmem
      · rcases (isAlpha_iff c).1 h.1 with h' | h'
        · exact Or.inr (Or.inl h')
        · exact Or.inr (Or.inr (Or.inl h'))
      · exact (isSchemeChar_iff c).1 (h.2 c hmem)
    simp only [char_eq_iff_toNat]
    rw [show (':' : Char).toNat = 58 from rfl, show ('/' : Char).toNat = 47 from rfl,
      show ('?' : Char).toNat = 63 from rfl, show ('#' : Char).toNat = 35 from rfl]
    omega

lemma toLower_not_sep3 {c : Char} (h : ¬(c = '/' ∨ c = '?' ∨ c = '#')) :
    ¬(c.toLower = '/' ∨ c.toLower = '?' ∨ c.toLower = '#') := by
  rw [toLower_eq_low (by decide), toLower_eq_low (by decide), toLower_eq_low (by decide)]
  exact h

lemma takeWhile_append_all {α : Type} (p : α → Bool) (a b : List α)
    (h : ∀ x ∈ a, p x = true) : (a ++ b).takeWhile p = a ++ b.takeWhile p := by
  induction a with
  | nil => rfl
  | cons x xs ih =>
    have hx := h x (List.mem_cons_self x xs)
    have ih2 := ih fun y hy => h y (List.mem_cons_of_mem x hy)
    simp [List.takeWhile_cons, hx, ih2]

lemma takeWhile_all {α : Type} (p : α → Bool) (l : List α)
    (h : ∀ x ∈ l, p x = true) : l.takeWhile p = l := by
  have h2 := takeWhile_append_all p l [] h
  simpa using h2

lemma drop_takeWhile_length {α : Type} (p : α → Bool) (l : List α) :
    l.drop (l.takeWhile p).length = l.dropWhile p := by
  induction l with
  | nil => rfl
  | cons a t ih =>
    by_cases h : p a = true
    · simp [List.takeWhile_cons, List.dropWhile_cons, h, ih]
    · simp [List.takeWhile_cons, List.dropWhile_cons, h]

lemma head_dropWhile_false {α : Type} (p : α → Bool) :
    ∀ (l : List α) (c : α), (l.dropWhile p).head? = some c → p c = false := by
  intro l
  induction l with
  | nil => intro c h; exact absurd h (by simp)
  | cons a t ih =>
    intro c h
    rw [List.dropWhile_cons] at h
    by_cases hp : p a = true
    · rw [if_pos hp] at h
      exact ih c h
    · rw [if_neg hp] at h
      have ha : a = c := by simpa using h
      subst ha
      exact Bool.eq_false_iff.2 hp

lemma takeWhile_segment {α : Type} (p : α → Bool) (a b : List α)
    (ha : ∀ x ∈ a, p x = true) (hb : ∀ c, b.head? = some c → p c = false) :
    (a ++ b).takeWhile p = a := by
  rw [takeWhile_append_all p a b ha]
  cases b with
  | nil => simp
  | cons c t =>
    have hc := hb c rfl
    simp [List.takeWhile_cons, hc]

lemma notSchemeSep_true {c : Char} (h : ¬(c = ':' ∨ c = '/' ∨ c = '?' ∨ c = '#')) :
    notSchemeSep c = true := by
  simp only [notSchemeSep, Bool.or_eq_true, decide_eq_true_eq, decide_eq_true_iff]
  tauto

lemma notHostSep_true {c : Char} (h : ¬(c = '/' ∨ c = '?' ∨ c = '#')) :
    notHostSep c = true := by
  simp only [notHostSep, Bool.or_eq_true, decide_eq_true_eq, decide_eq_true_iff]
  tauto

lemma notPathSep_true {c : Char} (h : ¬(c = '?' ∨ c = '#')) : notPathSep c = true := by
  simp only [notPathSep, Bool.or_eq_true, decide_eq_true_eq, decide_eq_true_iff]
  tauto

lemma notHashChar_true {c : Char} (h : ¬(c = '#')) : notHashChar c = true := by
  simp only [notHashChar, decide_eq_true_eq, decide_eq_true_iff]
  tauto

lemma notHostSep_false_elim {c : Char} (h : notHostSep c = false) :
    c = '/' ∨ c = '?' ∨ c = '#' := by
  by_contra hc
  rw [notHostSep_true (by tauto)] at h
  cases h

lemma notPathSep_false_elim {c : Char} (h : notPathSep c = false) :
    c = '?' ∨ c = '#' := by
  by_contra hc
  rw [notPathSep_true (by tauto)] at h
  cases h

lemma parseURL_concat (sch host path query : Str)
    (hsch : validSchemeStr sch = true)
    (hhost : host ≠ [])
    (hhostc : ∀ c ∈ host, ¬(c = '/' ∨ c = '?' ∨ c = '#'))
    (hpath : path = [] ∨ path.head? = some '/')
    (hpathc : ∀ c ∈ path, ¬(c = '?' ∨ c = '#'))
    (hquery : query = [] ∨ query.head? = some '?')
    (hqueryc : ∀ c ∈ query, ¬(c = '#')) :
    parseURL (sch ++ [':', '/', '/'] ++ host ++ path ++ query) =
      some ⟨lowerStr sch, lowerStr host, path, query, []⟩ := by
  have hassoc : sch ++ [':', '/', '/'] ++ host ++ path ++ query
      = sch ++ (':' :: '/' :: '/' :: (host ++ (path ++ query))) := by simp
  rw [hassoc]
  have e1 : (sch ++ (':' :: '/' :: '/' :: (host ++ (path ++ query)))).takeWhile notSchemeSep
      = sch := by
    refine takeWhile_segment _ _ _
      (fun x hx => notSchemeSep_true (schemeStr_not_sep hsch x hx)) ?_
    intro c h
    have hc : (':' : Char) = c := by simpa using h
    subst hc
    decide
  have e2 : (sch ++ (':' :: '/' :: '/' :: (host ++ (path ++ query)))).drop sch.length
      = ':' :: '/' :: '/' :: (host ++ (path ++ query)) := List.drop_left _ _
  have e3 : (sch ++ (':' :: '/' :: '/' :: (host ++ (path ++ query)))).drop (sch.length + 3)
      = host ++ (path ++ query) := by
    rw [show sch ++ (':' :: '/' :: '/' :: (host ++ (path ++ query)))
        = (sch ++ [':', '/', '/']) ++ (host ++ (path ++ query)) from by simp,
      show sch.length + 3 = (sch ++ [':', '/', '/']).length from by simp]
    exact List.drop_left _ _
  have hpq : ∀ c, (path ++ query).head? = some c → notHostSep c = false := by
    intro c h
    cases path with
    | nil =>
      rw [List.nil_append] at h
      cases query with
      | nil => exact absurd h (by simp)
      | cons q0 qt =>
        rcases hquery with hq | hq
        · exact absurd hq (by simp)
        · have h0 : q0 = '?' := by simpa using hq
          subst h0
          have hc : ('?' : Char) = c := by simpa using h
          subst hc
          decide
    | cons p0 pt =>
      rcases hpath with hP | hP
      · exact absurd hP (by simp)
      · have h0 : p0 = '/' := by simpa using hP
        subst h0
        have hc : ('/' : Char) = c := by simpa using h
        subst hc
        decide
  have e4 : (host ++ (path ++ query)).takeWhile notHostSep = host :=
    takeWhile_segment _ _ _ (fun x hx => notHostSep_true (hhostc x hx)) hpq
  have e5 : (host ++ (path ++ query)).drop host.length = path ++ query := List.drop_left _ _
  have hq2 : ∀ c, query.head? = some c → notPathSep c = false := by
    intro c h
    rcases hquery with hq | hq
    · rw [hq] at h
      exact absurd h (by simp)
    · rw [hq] at h
      have hc : ('?' : Char) = c := by simpa using h
      subst hc
      decide
  have e6 : (path ++ query).takeWhile notPathSep = path :=
    takeWhile_segment _ _ _ (fun x hx => notPathSep_true (hpathc x hx)) hq2
  have e7 : (path ++ query).drop path.length = query := List.drop_left _ _
  have e8 : query.takeWhile notHashChar = query :=
    takeWhile_all _ _ (fun x hx => notHashChar_true (hqueryc x hx))
  have e9 : query.drop query.length = [] := List.drop_length _
  simp only [parseURL]
  rw [e1, e2]
  rw [if_pos (⟨hsch, by simp⟩ : validSchemeStr sch = true ∧
    (':' :: '/' :: '/' :: (host ++ (path ++ query))).take 3 = [':', '/', '/'])]
  rw [e3, e4, if_neg hhost, e5, e6, e7, e8, e9]

lemma notHostSep_true_elim {c : Char} (h : notHostSep c = true) :
    ¬(c = '/' ∨ c = '?' ∨ c = '#') := by
  simp only [notHostSep, Bool.or_eq_true, decide_eq_true_eq, decide_eq_true_iff] at h
  tauto

lemma notPathSep_true_elim {c : Char} (h : notPathSep c = true) : ¬(c = '?' ∨ c = '#') := by
  simp only [notPathSep, Bool.or_eq_true, decide_eq_true_eq, decide_eq_true_iff] at h
  tauto

lemma notHashChar_true_elim {c : Char} (h : notHashChar c = true) : ¬(c = '#') := by
  simp only [notHashChar, decide_eq_true_eq, decide_eq_true_iff] at h
  tauto

lemma host_region_chars (rest : Str) :
    ∀ c ∈ rest.takeWhile notHostSep, ¬(c = '/' ∨ c = '?' ∨ c = '#') :=
  fun _ hc => notHostSep_true_elim (List.mem_takeWhile_imp hc)

lemma path_region_shape (rest : Str) :
    (rest.drop (rest.takeWhile notHostSep).length).takeWhile notPathSep = [] ∨
    ((rest.drop (rest.takeWhile notHostSep).length).takeWhile notPathSep).head? = some '/' := by
  rw [drop_takeWhile_length]
  cases hd : rest.dropWhile notHostSep with
  | nil => left; rfl
  | cons c t =>
    have hc := head_dropWhile_false notHostSep rest c (by rw [hd]; rfl)
    rcases notHostSep_false_elim hc with rfl | rfl | rfl
    · right
      simp [List.takeWhile_cons, show notPathSep '/' = true from by decide]
    · left
      simp [List.takeWhile_cons, show notPathSep '?' = false from by decide]
    · left
      simp [List.takeWhile_cons, show notPathSep '#' = false from by decide]

lemma path_region_chars (ah : Str) : ∀ c ∈ ah.takeWhile notPathSep, ¬(c = '?' ∨ c = '#') :=
  fun _ hc => notPathSep_true_elim (List.mem_takeWhile_imp hc)

lemma query_region_shape (ah : Str) :
    (ah.drop (ah.takeWhile notPathSep).length).takeWhile notHashChar = [] ∨
    ((ah.drop (ah.takeWhile notPathSep).length).takeWhile notHashChar).head? = some '?' := by
  rw [drop_takeWhile_length]
  cases hd : ah.dropWhile notPathSep with
  | nil => left; rfl
  | cons c t =>
    have hc := head_dropWhile_false notPathSep ah c (by rw [hd]; rfl)
    rcases notPathSep_false_elim hc with rfl | rfl
    · right
      simp [List.takeWhile_cons, show notHashChar '?' = true from by decide]
    · left
      simp [List.takeWhile_cons, show notHashChar '#' = false from by decide]

lemma query_region_chars (ap : Str) : ∀ c ∈ ap.takeWhile notHashChar, ¬(c = '#') :=
  fun _ hc => notHashChar_true_elim (List.mem_takeWhile_imp hc)

lemma parseURL_props (s : Str) (r : URLRec) (h : parseURL s = some r) :
    validSchemeStr r.scheme = true ∧ lowerStr r.scheme = r.scheme ∧
    r.host ≠ [] ∧ lowerStr r.host = r.host ∧
    (∀ c ∈ r.host, ¬(c = '/' ∨ c = '?' ∨ c = '#')) ∧
    (r.path = [] ∨ r.path.head? = some '/') ∧
    (∀ c ∈ r.path, ¬(c = '?' ∨ c = '#')) ∧
    (r.query = [] ∨ r.query.head? = some '?') ∧
    (∀ c ∈ r.query, ¬(c = '#')) := by
  simp only [parseURL] at h
  split at h
  · rename_i hcond
    split at h
    · exact absurd h (by simp)
    · rename_i hhostne
      injection h with h
      subst h
      dsimp only
      refine ⟨validSchemeStr_lower _ hcond.1, lowerStr_idem _, ?_, lowerStr_idem _,
        ?_, path_region_shape _, path_region_chars _, query_region_shape _,
        query_region_chars _⟩
      · intro hh
        rw [lowerStr, List.map_eq_nil_iff] at hh
        exact hhostne hh
      · intro c hc
        rcases List.mem_map.1 hc with ⟨c₀, hc₀, rfl⟩
        exact toLower_not_sep3 (notHostSep_true_elim (List.mem_takeWhile_imp hc₀))
  · exact absurd h (by simp)

lemma isValidUrl_no_doubling (url : Str) (r : URLRec) (hv : isValidUrl url = true)
    (hp : parseURL url = some r) :
    ¬ ((['/'] ++ r.host ++ ['/']).isPrefixOf r.pathname = true) := by
  intro hpre
  unfold isValidUrl at hv
  rw [hp] at hv
  dsimp only at hv
  repeat' split at hv
  any_goals cases hv

lemma normalizeUrl_some_elim {u v : Str} (h : normalizeUrl u = some v) :
    ∃ c r, cleanUrl u = some c ∧ isValidUrl c = true ∧ parseURL c = some r ∧
      v = stripOneTrailingSlash (serializeURL { r with hash := [] }) := by
  unfold normalizeUrl at h
  cases hc : cleanUrl u with
  | none => rw [hc] at h; cases h
  | some c =>
    rw [hc] at h
    dsimp only at h
    by_cases hv : isValidUrl c = true
    · rw [if_neg (not_not_intro hv)] at h
      cases hp : parseURL c with
      | none => rw [hp] at h; cases h
      | some r =>
        rw [hp] at h
        dsimp only at h
        have hnd := isValidUrl_no_doubling c r hv hp
        rw [if_neg hnd] at h
        injection h with h
        exact ⟨c, r, rfl, hv, hp, h.symm⟩
    · rw [if_pos hv] at h
      cases h

lemma normalizeUrl_build (v : Str) (r₂ : URLRec) (h2 : cleanUrl v = some v)
    (h3 : isValidUrl v = true) (hp2 : parseURL v = some r₂) :
    normalizeUrl v = some (stripOneTrailingSlash (serializeURL { r₂ with hash := [] })) := by
  have hnd := isValidUrl_no_doubling v r₂ h3 hp2
  unfold normalizeUrl
  rw [h2]
  dsimp only
  rw [if_neg (not_not_intro h3), hp2]
  dsimp only
  rw [if_neg hnd]

lemma serializeURL_hashless (r₂ : URLRec) :
    serializeURL { r₂ with hash := [] } =
      r₂.scheme ++ [':', '/', '/'] ++ r₂.host ++ r₂.pathname ++ r₂.query := by
  rw [serializeURL]
  rw [show ({ r₂ with hash := [] } : URLRec).hash = [] from rfl, List.append_nil]
  rfl

lemma strip_no_slash {s : Str} (h : s.getLast? ≠ some '/') : stripOneTrailingSlash s = s := by
  rw [stripOneTrailingSlash, if_neg h]

lemma strip_slash {s : Str} (h : s.getLast? = some '/') :
    stripOneTrailingSlash s = s.dropLast := by
  rw [stripOneTrailingSlash, if_pos h]

lemma normalizeUrl_fixpoint_aux (w rs rh P q : Str)
    (hw : w = rs ++ [':', '/', '/'] ++ rh ++ P ++ q)
    (hs : validSchemeStr rs = true) (hsl : lowerStr rs = rs)
    (hh : rh ≠ []) (hhl : lowerStr rh = rh)
    (hhc : ∀ c ∈ rh, ¬(c = '/' ∨ c = '?' ∨ c = '#'))
    (hPne : P ≠ []) (hPh : P.head? = some '/') (hPc : ∀ c ∈ P, ¬(c = '?' ∨ c = '#'))
    (hq : q = [] ∨ q.head? = some '?') (hqc : ∀ c ∈ q, ¬(c = '#'))
    (h2 : cleanUrl w = some w) (h3 : isValidUrl w = true)
    (h4 : w.getLast? ≠ some '/') :
    normalizeUrl w = some w := by
  subst hw
  have hp2 : parseURL (rs ++ [':', '/', '/'] ++ rh ++ P ++ q) = some ⟨rs, rh, P, q, []⟩ := by
    have h0 := parseURL_concat rs rh P q hs hh hhc (Or.inr hPh) hPc hq hqc
    rwa [hsl, hhl] at h0
  rw [normalizeUrl_build _ _ h2 h3 hp2]
  have hser : serializeURL { (⟨rs, rh, P, q, []⟩ : URLRec) with hash := [] }
      = rs ++ [':', '/', '/'] ++ rh ++ P ++ q := by
    rw [serializeURL_hashless]
    rw [show (⟨rs, rh, P, q, []⟩ : URLRec).pathname = P from by
      rw [URLRec.pathname]; exact if_neg hPne]
  rw [hser, strip_no_slash h4]

lemma normalizeUrl_fixpoint_host (w rs rh : Str)
    (hw : w = rs ++ [':', '/', '/'] ++ rh)
    (hs : validSchemeStr rs = true) (hsl : lowerStr rs = rs)
    (hh : rh ≠ []) (hhl : lowerStr rh = rh)
    (hhc : ∀ c ∈ rh, ¬(c = '/' ∨ c = '?' ∨ c = '#'))
    (h2 : cleanUrl w = some w) (h3 : isValidUrl w = true) :
    normalizeUrl w = some w := by
  subst hw
  have hp2 : parseURL (rs ++ [':', '/', '/'] ++ rh) = some ⟨rs, rh, [], [], []⟩ := by
    have h0 := parseURL_concat rs rh [] [] hs hh hhc (Or.inl rfl) (by simp) (Or.inl rfl)
      (by simp)
    rw [hsl, hhl] at h0
    simpa using h0
  rw [normalizeUrl_build _ _ h2 h3 hp2]
  have hser : serializeURL { (⟨rs, rh, [], [], []⟩ : URLRec) with hash := [] }
      = (rs ++ [':', '/', '/'] ++ rh) ++ ['/'] := by
    rw [serializeURL_hashless]
    rw [show (⟨rs, rh, [], [], []⟩ : URLRec).pathname = ['/'] from by
      rw [URLRec.pathname]; exact if_pos rfl]
    show rs ++ [':', '/', '/'] ++ rh ++ ['/'] ++ [] = _
    simp
  rw [hser, strip_slash (List.getLast?_concat _), List.dropLast_concat]

/-- C4 counterexample: URL normalization is not idempotent on the code:
`normalize` maps `https://example.com/CCCard` to `https://example.com/CCard`,
but normalizing that output again fires the `CCard -> Card` corruption
repair of `cleanUrl` once more and yields `https://example.com/Card`, so
`normalize(normalize(u))` differs from `normalize(u)`. -/
theorem claim_C4_counterexample :
    normalizeUrl "https://example.com/CCCard".toList =
      some "https://example.com/CCard".toList ∧
    normalizeUrl "https://example.com/CCard".toList =
      some "https://example.com/Card".toList ∧
    normalizeUrl "https://example.com/CCard".toList ≠
      some "https://example.com/CCard".toList := by
  refine ⟨by decide, by decide, by decide⟩

/-- C4 amended: `normalizeUrl` is idempotent on every output `v` of
`normalizeUrl` on which the cleaning pass is the identity
(`cleanUrl v = some v`, i.e. no corruption-repair or slash rewrite fires
on `v`), which `isValidUrl` accepts, and which does not end in `/`: a
second `normalizeUrl` re-parses, re-serializes and re-strips such a `v`
to exactly itself.  (The counterexample shows the first proviso is not
vacuous: a repair rule can fire on an output of `normalize`.) -/
theorem claim_C4_normalize_idempotent (u v : Str)
    (h1 : normalizeUrl u = some v)
    (h2 : cleanUrl v = some v)
    (h3 : isValidUrl v = true)
    (h4 : v.getLast? ≠ some '/') :
    normalizeUrl v = some v := by
  obtain ⟨c, r, hc, hvv, hp, hveq⟩ := normalizeUrl_some_elim h1
  obtain ⟨hsch, hschl, hhost, hhostl, hhostc, hpsh, hpc, hqsh, hqc⟩ := parseURL_props c r hp
  rw [serializeURL_hashless] at hveq
  have hPne : r.pathname ≠ [] := by
    rw [URLRec.pathname]; split
    · simp
    · rename_i hne; exact hne
  have hPh : r.pathname.head? = some '/' := by
    rw [URLRec.pathname]; split
    · rfl
    · rename_i hne
      rcases hpsh with h' | h'
      · exact absurd h' hne
      · exact h'
  have hPc : ∀ ch ∈ r.pathname, ¬(ch = '?' ∨ ch = '#') := by
    rw [URLRec.pathname]; split
    · intro ch hch
      have hch2 : ch = '/' := by simpa using hch
      subst hch2; decide
    · exact hpc
  rcases hqsh with hqnil | hqhead
  · rw [hqnil, List.append_nil] at hveq
    by_cases hpl : r.pathname.getLast? = some '/'
    · rw [strip_slash (by rw [List.getLast?_append_of_ne_nil _ hPne]; exact hpl),
        List.dropLast_append_of_ne_nil _ hPne] at hveq
      by_cases hPd : r.pathname.dropLast = []
      · rw [hPd, List.append_nil] at hveq
        exact normalizeUrl_fixpoint_host v r.scheme r.host hveq hsch hschl hhost hhostl
          hhostc h2 h3
      · obtain ⟨p0, pt, hpcons⟩ := List.exists_cons_of_ne_nil hPne
        have hp0 : p0 = '/' := by rw [hpcons] at hPh; simpa using hPh
        have hptne : pt ≠ [] := by
          intro hpt
          exact hPd (by rw [hpcons, hpt]; rfl)
        have hpdrop : r.pathname.dropLast = '/' :: pt.dropLast := by
          rw [hpcons, hp0, List.dropLast_cons_of_ne_nil hptne]
        refine normalizeUrl_fixpoint_aux v r.scheme r.host r.pathname.dropLast []
          (by rw [hveq]; simp) hsch hschl hhost hhostl hhostc hPd
          (by rw [hpdrop]; rfl)
          (fun ch hch => hPc ch ((List.dropLast_sublist _).subset hch))
          (Or.inl rfl) (by simp) h2 h3 h4
    · rw [strip_no_slash (by rw [List.getLast?_append_of_ne_nil _ hPne]; exact hpl)] at hveq
      refine normalizeUrl_fixpoint_aux v r.scheme r.host r.pathname []
        (by rw [hveq]; simp) hsch hschl hhost hhostl hhostc hPne hPh hPc
        (Or.inl rfl) (by simp) h2 h3 h4
  · have hqne : r.query ≠ [] := by
      intro hqq
      rw [hqq] at hqhead
      cases hqhead
    by_cases hql : r.query.getLast? = some '/'
    · rw [strip_slash (by rw [List.getLast?_append_of_ne_nil _ hqne]; exact hql),
        List.dropLast_append_of_ne_nil _ hqne] at hveq
      obtain ⟨q0, qt, hqcons⟩ := List.exists_cons_of_ne_nil hqne
      have hq0 : q0 = '?' := by rw [hqcons] at hqhead; simpa using hqhead
      have hqtne : qt ≠ [] := by
        intro hqt
        rw [hqcons, hq0, hqt] at hql
        exact absurd hql (by decide)
      have hqdrop : r.query.dropLast = '?' :: qt.dropLast := by
        rw [hqcons, hq0, List.dropLast_cons_of_ne_nil hqtne]
      refine normalizeUrl_fixpoint_aux v r.scheme r.host r.pathname r.query.dropLast
        hveq hsch hschl hhost hhostl hhostc hPne hPh hPc
        (Or.inr (by rw [hqdrop]; rfl))
        (fun ch hch => hqc ch ((List.dropLast_sublist _).subset hch)) h2 h3 h4
    · rw [strip_no_slash (by rw [List.getLast?_append_of_ne_nil _ hqne]; exact hql)] at hveq
      exact normalizeUrl_fixpoint_aux v r.scheme r.host r.pathname r.query
        hveq hsch hschl hhost hhostl hhostc hPne hPh hPc (Or.inr hqhead) hqc h2 h3 h4

/-- C4 witness: the amended idempotence statement instantiated on
`https://example.com/cards`, a fixpoint of `normalize` on which all
three provisos hold by evaluation. -/
theorem claim_C4_normalize_idempotent_witness :
    normalizeUrl "https://example.com/cards".toList =
      some "https://example.com/cards".toList :=
  claim_C4_normalize_idempotent "https://example.com/cards".toList
    "https://example.com/cards".toList (by decide) (by decide) (by decide) (by decide)
